import Mathlib

/-!
Verification model of the `pr-reviewer` VS Code extension (src/README.md,
which embeds the whole `extension.ts`).  The extension is glue code around
three externals (git, an inference HTTP endpoint, the editor UI); the parts
the claims are about — `safeParseReview`, `filterIssuesAgainstSpec`,
`ensureOllamaReady`, `getReview`, `toAbsolutePath`, `escapeHtml` and the
command pipeline in `activate` — are modelled here as executable Lean
functions over a shallow embedding of JSON values and JS strings.

Modelling conventions (stated once, used throughout):
* JS strings are Lean `String`s / `List Char`; indices are code points
  (JS uses UTF-16 units; the difference only shows for astral-plane
  characters, outside the scope of every claim).
* JS numbers are modelled as exact rationals (`JsNum`, an integer
  numerator over a positive natural denominator, compared by
  cross-multiplication): every value the programs below produce from
  finite literals (fractions, exponents, hex) is an exact rational, and
  ordering/`Math.max` agree with IEEE doubles on them at these
  magnitudes.  `NaN` is `Option.none` at the `Number(...)` boundary;
  `Infinity` (unrepresentable as a rational) is out of scope and noted
  where it could arise.
* The bundle is built by esbuild from ESM TypeScript to CJS
  (`src/esbuild.js`), so the emitted code runs in strict mode: assigning a
  property to a primitive (as `safeParseReview`'s coercion loop does for a
  non-object issue entry) throws a `TypeError`, which the surrounding
  `try`/`catch` turns into the fallback result.
* Fallible external calls (fetch, `res.json()`, `res.text()`, opening a
  document) are oracles in an `Env`/argument; a thrown JS error is an
  `Except.error` carrying the thrown message.  Where the exact text of an
  environment-generated `TypeError` message is not specified by the source,
  a fixed descriptive message is used; no claim depends on those texts.
-/

/-- An exact JS number: an integer numerator over a (positive) natural
denominator.  Values are not gcd-normalized; all comparisons go through
cross-multiplication, so every operation reduces by kernel `Int`/`Nat`
arithmetic.  Every constructor below keeps the denominator positive. -/
structure JsNum where
  num : Int
  den : Nat
  deriving DecidableEq

namespace JsNum

instance : OfNat JsNum n := ⟨⟨(n : Int), 1⟩⟩

def neg (a : JsNum) : JsNum := ⟨-a.num, a.den⟩

/-- `a - 1` (used for the `startLine - 1` index computation). -/
def subOne (a : JsNum) : JsNum := ⟨a.num - (a.den : Int), a.den⟩

/-- Scale by `10 ^ e` for a possibly negative exponent. -/
def mulPow10 (a : JsNum) (e : Int) : JsNum :=
  if 0 ≤ e then ⟨a.num * ((10 ^ e.toNat : Nat) : Int), a.den⟩
  else ⟨a.num, a.den * 10 ^ (-e).toNat⟩

/-- `a ≤ b` by cross-multiplication (denominators are positive). -/
def Le (a b : JsNum) : Prop := a.num * (b.den : Int) ≤ b.num * (a.den : Int)

/-- `a < b` by cross-multiplication. -/
def Lt (a b : JsNum) : Prop := a.num * (b.den : Int) < b.num * (a.den : Int)

instance (a b : JsNum) : Decidable (a.Le b) :=
  inferInstanceAs (Decidable (_ ≤ _))

instance (a b : JsNum) : Decidable (a.Lt b) :=
  inferInstanceAs (Decidable (_ < _))

/-- `Math.max` on exact values. -/
def maxJ (a b : JsNum) : JsNum := if a.Le b then b else a

/-- The value is an integer (denominator divides numerator). -/
def IsInt (a : JsNum) : Prop := a.num % (a.den : Int) = 0

instance (a : JsNum) : Decidable a.IsInt :=
  inferInstanceAs (Decidable (_ = _))

theorem le_refl (a : JsNum) : a.Le a := Int.le_refl _

theorem le_maxJ_left (a b : JsNum) : a.Le (a.maxJ b) := by
  unfold maxJ; split
  · assumption
  · exact le_refl a

theorem maxJ_self (a : JsNum) : a.maxJ a = a := by
  unfold maxJ; split <;> rfl

theorem maxJ_eq_left (a b : JsNum) (h : b.Lt a) : a.maxJ b = a := by
  unfold maxJ
  rw [if_neg]
  intro hle
  exact absurd h (not_lt.mpr hle)

theorem maxJ_choice (a b : JsNum) : a.maxJ b = a ∨ a.maxJ b = b := by
  unfold maxJ; split
  · exact Or.inr rfl
  · exact Or.inl rfl

theorem maxJ_isInt (a b : JsNum) (ha : a.IsInt) (hb : b.IsInt) :
    (a.maxJ b).IsInt := by
  rcases maxJ_choice a b with h | h <;> rw [h] <;> assumption

end JsNum

/-- A JSON value as produced by `JSON.parse` / consumed by the extension. -/
inductive Json where
  | null
  | bool (b : Bool)
  | num (q : JsNum)
  | str (s : String)
  | arr (elems : List Json)
  | obj (fields : List (String × Json))

namespace Json

/-- Field lookup in an object's field list (first match; the parser below
keeps keys unique, matching the single-property semantics of JS objects). -/
def lookupF : List (String × Json) → String → Option Json
  | [], _ => none
  | (k', v') :: rest, k => if k' = k then some v' else lookupF rest k

/-- Insert/overwrite a field, preserving the position of an existing key —
JS property-assignment semantics (`obj.k = v`). -/
def objInsert : List (String × Json) → String → Json → List (String × Json)
  | [], k, v => [(k, v)]
  | (k', v') :: rest, k, v =>
    if k' = k then (k', v) :: rest else (k', v') :: objInsert rest k v

def eraseKey : List (String × Json) → String → List (String × Json)
  | [], _ => []
  | (k', v') :: rest, k =>
    if k' = k then eraseKey rest k else (k', v') :: eraseKey rest k

/-- Prepend a member parsed before the members `fs`: a duplicate key keeps
this (first) position but takes the later value, as in `JSON.parse`. -/
def consField (k : String) (v : Json) (fs : List (String × Json)) :
    List (String × Json) :=
  match lookupF fs k with
  | some v2 => (k, v2) :: eraseKey fs k
  | none => (k, v) :: fs

end Json

/-- Property read `j.k`: an object yields its field (or `undefined` = `none`);
every non-object non-null value yields `undefined`.  Reads on `null` throw in
JS and are handled explicitly at each use site. -/
def jsGetField (j : Json) (k : String) : Option Json :=
  match j with
  | .obj fs => Json.lookupF fs k
  | _ => none

/-- JS truthiness of a JSON value (`NaN`/`undefined` cannot occur here). -/
def jsTruthy : Json → Bool
  | .null => false
  | .bool b => b
  | .num q => q.num != 0
  | .str s => s ≠ ""
  | .arr _ => true
  | .obj _ => true

/-- The whitespace class used by JS `String.prototype.trim` and regex `\s`
(ASCII part plus NBSP; more exotic Unicode space characters are outside the
scope of the claims). -/
def jsSpace (c : Char) : Bool :=
  c = ' ' || c = '\t' || c = '\n' || c = '\r' || c = '\x0b' || c = '\x0c' || c = ' '

/-- `String.prototype.trim`, on character lists: drop leading and trailing
whitespace. -/
def jsTrimR (cs : List Char) : List Char :=
  (cs.reverse.dropWhile jsSpace).reverse

def jsTrimL (cs : List Char) : List Char :=
  cs.dropWhile jsSpace

def jsTrimList (cs : List Char) : List Char :=
  jsTrimL (jsTrimR cs)

def jsTrimStr (s : String) : String :=
  ⟨jsTrimList s.data⟩

/-- Decimal digits to a number (used for `Number(...)` and `JSON.parse`). -/
def digitsToNat (ds : List Char) : Nat :=
  ds.foldl (fun a c => a * 10 + (c.toNat - 48)) 0

/-- Digits in an arbitrary base, `none` when a character is not a digit of
that base. -/
def digitsToNatBase (base : Nat) (dv : Char → Option Nat) (ds : List Char) :
    Option Nat :=
  ds.foldl (fun acc c =>
    match acc, dv c with
    | some a, some d => some (a * base + d)
    | _, _ => none) (some 0)

def hexDigitVal (c : Char) : Option Nat :=
  if '0' ≤ c ∧ c ≤ '9' then some (c.toNat - 48)
  else if 'a' ≤ c ∧ c ≤ 'f' then some (c.toNat - 97 + 10)
  else if 'A' ≤ c ∧ c ≤ 'F' then some (c.toNat - 65 + 10)
  else none

def octDigitVal (c : Char) : Option Nat :=
  if '0' ≤ c ∧ c ≤ '7' then some (c.toNat - 48) else none

def binDigitVal (c : Char) : Option Nat :=
  if c = '0' then some 0 else if c = '1' then some 1 else none

/-- The exponent tail of a decimal numeric string: empty input means no
exponent; otherwise `e|E [+-]? digits` must consume everything. -/
def parseExpTail (cs : List Char) : Option Int :=
  match cs with
  | [] => some 0
  | e :: r =>
    if e = 'e' ∨ e = 'E' then
      let (sgn, r') : Int × List Char :=
        match r with
        | '+' :: rr => (1, rr)
        | '-' :: rr => (-1, rr)
        | _ => (1, r)
      if r' ≠ [] ∧ r'.all Char.isDigit then some (sgn * (digitsToNat r' : Int))
      else none
    else none

/-- A decimal numeric-string body (after the optional sign):
`digits [. digits] [exp]` or `. digits [exp]`, consuming everything. -/
def parseDecString (cs : List Char) : Option JsNum :=
  let ids := cs.takeWhile Char.isDigit
  let rest := cs.dropWhile Char.isDigit
  match rest with
  | '.' :: r =>
    let fds := r.takeWhile Char.isDigit
    let rest2 := r.dropWhile Char.isDigit
    if ids = [] ∧ fds = [] then none
    else
      (parseExpTail rest2).map (fun e =>
        JsNum.mulPow10 ⟨(digitsToNat (ids ++ fds) : Int), 10 ^ fds.length⟩ e)
  | _ =>
    if ids = [] then none
    else (parseExpTail rest).map (fun e =>
      JsNum.mulPow10 ⟨(digitsToNat ids : Int), 1⟩ e)

/-- `Number(string)`: trimmed; empty → 0; hex/octal/binary literals (no
sign allowed); otherwise an optionally signed decimal with fraction and
exponent.  `"Infinity"` is a number in JS but unrepresentable as a
rational and out of the model's scope (it behaves as NaN here). -/
def jsStringToNumber (s : String) : Option JsNum :=
  match jsTrimList s.data with
  | [] => some 0
  | '0' :: x :: ds =>
    if x = 'x' ∨ x = 'X' then
      if ds ≠ [] then
        (digitsToNatBase 16 hexDigitVal ds).map (fun n => (⟨(n : Int), 1⟩ : JsNum))
      else none
    else if x = 'o' ∨ x = 'O' then
      if ds ≠ [] then
        (digitsToNatBase 8 octDigitVal ds).map (fun n => (⟨(n : Int), 1⟩ : JsNum))
      else none
    else if x = 'b' ∨ x = 'B' then
      if ds ≠ [] then
        (digitsToNatBase 2 binDigitVal ds).map (fun n => (⟨(n : Int), 1⟩ : JsNum))
      else none
    else parseDecString ('0' :: x :: ds)
  | '-' :: r => (parseDecString r).map JsNum.neg
  | '+' :: r => parseDecString r
  | t => parseDecString t

def jsToNumberV : Json → Option JsNum
  | .null => some 0                    -- Number(null) = 0
  | .bool b => some (if b then 1 else 0)
  | .num q => some q
  | .str s => jsStringToNumber s
  | .arr [] => some 0                  -- Number([]) = 0
  | .arr [x] => jsToNumberV x          -- Number([v]) = Number(String(v))
  | .arr (_ :: _ :: _) => none         -- multi-element arrays stringify with commas: NaN
  | .obj _ => none                     -- Number({}) = NaN

def jsToNumber : Option Json → Option JsNum
  | none => none                       -- Number(undefined) = NaN
  | some v => jsToNumberV v

/-- Fraction digits of `rem/den` by long division; the denominators the
parsers produce are of the form `2^a*5^b`, whose expansions terminate well
within the fuel (IEEE doubles need at most 1075 fraction digits). -/
def fracDigitsAux : Nat → Nat → Nat → List Char
  | 0, _, _ => []
  | _ + 1, 0, _ => []
  | fuel + 1, rem, den =>
    Char.ofNat (48 + rem * 10 / den) :: fracDigitsAux fuel (rem * 10 % den) den

/-- `String(number)` for the exact rationals of the model: sign, integer
part, and a terminating fraction part.  (JS switches to exponent notation
for magnitudes beyond 1e21/1e-7; those corners are outside claim scope.) -/
def jsNumToString (q : JsNum) : String :=
  let sign := if q.num < 0 then "-" else ""
  let n := q.num.natAbs
  let ip := n / q.den
  let rem := n % q.den
  if rem = 0 then sign ++ toString ip
  else sign ++ toString ip ++ "." ++ ⟨fracDigitsAux 1200 rem q.den⟩

mutual

/-- `String(v)` for an element inside `Array.prototype.join`: `null` and
`undefined` become the empty string. -/
def jsJoinElemString : Json → String
  | .null => ""
  | .bool b => if b then "true" else "false"
  | .num q => jsNumToString q
  | .str s => s
  | .arr xs => jsArrJoinString xs
  | .obj _ => "[object Object]"

def jsArrJoinString : List Json → String
  | [] => ""
  | [x] => jsJoinElemString x
  | x :: xs => jsJoinElemString x ++ "," ++ jsArrJoinString xs

end

/-- Top-level `String(v)` conversion of a defined JSON value. -/
def jsToString : Json → String
  | .null => "null"
  | .bool b => if b then "true" else "false"
  | .num q => jsNumToString q
  | .str s => s
  | .arr xs => jsArrJoinString xs
  | .obj _ => "[object Object]"

/-- `String(v)` where `v` may be `undefined` (`none`). -/
def jsToStringU : Option Json → String
  | none => "undefined"
  | some v => jsToString v

/-! ### JSON.parse

A fuel-indexed executable parser for the JSON grammar (integers only, see
the header note).  `JSON.parse` semantics: surrounding whitespace is the
four JSON whitespace characters; duplicate object keys keep the last value;
literal control characters inside strings are rejected. -/

def jsonWs (c : Char) : Bool :=
  c = ' ' || c = '\t' || c = '\n' || c = '\r'

def skipJsonWs (cs : List Char) : List Char :=
  cs.dropWhile jsonWs

def hexVal (c : Char) : Option Nat :=
  if '0' ≤ c ∧ c ≤ '9' then some (c.toNat - '0'.toNat)
  else if 'a' ≤ c ∧ c ≤ 'f' then some (c.toNat - 'a'.toNat + 10)
  else if 'A' ≤ c ∧ c ≤ 'F' then some (c.toNat - 'A'.toNat + 10)
  else none

/-- Parse the body of a JSON string literal (after the opening quote). -/
def pJsonString : Nat → List Char → Option (String × List Char)
  | 0, _ => none
  | _, [] => none
  | fuel + 1, c :: rest =>
    if c = '"' then some ("", rest)
    else if c = '\\' then
      match rest with
      | [] => none
      | e :: rest' =>
        let esc : Option (Char × List Char) :=
          if e = '"' then some ('"', rest')
          else if e = '\\' then some ('\\', rest')
          else if e = '/' then some ('/', rest')
          else if e = 'b' then some ('\x08', rest')
          else if e = 'f' then some ('\x0c', rest')
          else if e = 'n' then some ('\n', rest')
          else if e = 'r' then some ('\r', rest')
          else if e = 't' then some ('\t', rest')
          else if e = 'u' then
            match rest' with
            | h1 :: h2 :: h3 :: h4 :: rest'' =>
              match hexVal h1, hexVal h2, hexVal h3, hexVal h4 with
              | some a, some b, some c', some d =>
                some (Char.ofNat (((a * 16 + b) * 16 + c') * 16 + d), rest'')
              | _, _, _, _ => none
            | _ => none
          else none
        match esc with
        | none => none
        | some (ch, rest'') =>
          match pJsonString fuel rest'' with
          | some (s, r) => some (⟨ch :: s.data⟩, r)
          | none => none
    else if c.toNat < 32 then none  -- raw control characters are invalid
    else
      match pJsonString fuel rest with
      | some (s, r) => some (⟨c :: s.data⟩, r)
      | none => none

/-- The `[+-]? digits` exponent of a JSON number. -/
def pJsonExp (cs : List Char) : Option (Int × List Char) :=
  let (sgn, cs') : Int × List Char :=
    match cs with
    | '+' :: r => (1, r)
    | '-' :: r => (-1, r)
    | _ => (1, cs)
  let ds := cs'.takeWhile Char.isDigit
  if ds = [] then none
  else some (sgn * (digitsToNat ds : Int), cs'.dropWhile Char.isDigit)

/-- Parse a JSON number: `-? (0 | [1-9]digits) (. digits)? ([eE][+-]?digits)?`
(leading zeros rejected as in `JSON.parse`), as an exact rational. -/
def pJsonNumber (cs : List Char) : Option (JsNum × List Char) :=
  let (neg, cs₁) := match cs with
    | '-' :: rest => (true, rest)
    | _ => (false, cs)
  let ds := cs₁.takeWhile Char.isDigit
  let rest₁ := cs₁.dropWhile Char.isDigit
  if ds = [] then none
  else if ds.length > 1 ∧ ds.head? = some '0' then none
  else
    let fr : Option (List Char × List Char) :=
      match rest₁ with
      | '.' :: r =>
        let fds := r.takeWhile Char.isDigit
        if fds = [] then none else some (fds, r.dropWhile Char.isDigit)
      | _ => some ([], rest₁)
    match fr with
    | none => none
    | some (fds, rest₂) =>
      let ex : Option (Int × List Char) :=
        match rest₂ with
        | c :: r => if c = 'e' ∨ c = 'E' then pJsonExp r else some (0, rest₂)
        | [] => some (0, [])
      match ex with
      | none => none
      | some (e, rest₃) =>
        let mag : JsNum :=
          JsNum.mulPow10 ⟨(digitsToNat (ds ++ fds) : Int), 10 ^ fds.length⟩ e
        some (if neg then mag.neg else mag, rest₃)

mutual

def pJsonVal : Nat → List Char → Option (Json × List Char)
  | 0, _ => none
  | fuel + 1, cs =>
    let cs := skipJsonWs cs
    match cs with
    | 'n' :: 'u' :: 'l' :: 'l' :: rest => some (.null, rest)
    | 't' :: 'r' :: 'u' :: 'e' :: rest => some (.bool true, rest)
    | 'f' :: 'a' :: 'l' :: 's' :: 'e' :: rest => some (.bool false, rest)
    | '"' :: rest => (pJsonString (fuel + 1) rest).map (fun p => (.str p.1, p.2))
    | '[' :: rest =>
      let rest' := skipJsonWs rest
      (match rest' with
       | ']' :: r => some (.arr [], r)
       | _ => (pJsonElems fuel rest').map (fun p => (Json.arr p.1, p.2)))
    | '{' :: rest =>
      let rest' := skipJsonWs rest
      (match rest' with
       | '}' :: r => some (.obj [], r)
       | _ => (pJsonFields fuel rest').map (fun p => (Json.obj p.1, p.2)))
    | _ => (pJsonNumber cs).map (fun p => (.num p.1, p.2))

/-- One-or-more comma-separated array elements followed by `]`. -/
def pJsonElems : Nat → List Char → Option (List Json × List Char)
  | 0, _ => none
  | fuel + 1, cs =>
    match pJsonVal fuel cs with
    | none => none
    | some (v, rest) =>
      match skipJsonWs rest with
      | ',' :: rest' => (pJsonElems fuel rest').map (fun p => (v :: p.1, p.2))
      | ']' :: rest' => some ([v], rest')
      | _ => none

/-- One-or-more comma-separated object members followed by a closing brace;
duplicate keys are collapsed as in `JSON.parse`. -/
def pJsonFields : Nat → List Char → Option (List (String × Json) × List Char)
  | 0, _ => none
  | fuel + 1, cs =>
    match skipJsonWs cs with
    | '"' :: rest =>
      match pJsonString (fuel + 1) rest with
      | none => none
      | some (k, rest') =>
        match skipJsonWs rest' with
        | ':' :: rest'' =>
          match pJsonVal fuel rest'' with
          | none => none
          | some (v, rest3) =>
            match skipJsonWs rest3 with
            | ',' :: rest4 =>
              (pJsonFields fuel rest4).map (fun p => (Json.consField k v p.1, p.2))
            | c :: rest4 =>
              if c = '}' then some ([(k, v)], rest4) else none
            | [] => none
        | _ => none
    | _ => none

end

/-- `JSON.parse` on a character list: the whole input must be one JSON value
surrounded only by JSON whitespace; `none` is a thrown `SyntaxError`. -/
def jsonParseChars (cs : List Char) : Option Json :=
  match pJsonVal (4 * cs.length + 8) cs with
  | some (v, rest) => if skipJsonWs rest = [] then some v else none
  | none => none

def jsonParse (s : String) : Option Json :=
  jsonParseChars s.data

/-! ### Regex-based extraction in `safeParseReview`

The source applies, in order:
`text.match(/```json\s*([\s\S]*?)```/i) || text.match(/```\s*([\s\S]*?)```/)`
and then `candidate.match(/\{[\s\S]*\}/)`.  Both fence regexes are
deterministic: the engine takes the leftmost opener, the greedy `\s*`
cannot overlap a backtick, and the lazy body ends at the first subsequent
` ``` `.  The brace regex spans from the first brace that has a closing
brace somewhere after it up to the last closing brace of the string. -/

/-- The backtick character (0x60). -/
def tick : Char := Char.ofNat 96

/-- The apostrophe character (0x27). -/
def apos : Char := Char.ofNat 39

/-- ASCII upper-casing, used to model the regex `i` flag: a (lowercase or
non-letter) pattern character `p` matches input `c` iff `c = p` or
`c = toUpperAscii p`. -/
def toUpperAscii (c : Char) : Char :=
  if 'a' ≤ c ∧ c ≤ 'z' then Char.ofNat (c.toNat - 32) else c

def ciEq (p c : Char) : Bool :=
  p == c || toUpperAscii p == c

/-- Match a literal pattern case-insensitively at the head of the input,
returning the remainder. -/
def stripPrefixCI : List Char → List Char → Option (List Char)
  | [], cs => some cs
  | _ :: _, [] => none
  | p :: ps, c :: cs => if ciEq p c then stripPrefixCI ps cs else none

/-- Strip a leading ` ``` `. -/
def stripTicks3 (cs : List Char) : Option (List Char) :=
  if cs.take 3 = [tick, tick, tick] then some (cs.drop 3) else none

/-- Split the input at the first ` ``` ` occurrence: `(before, after)`. -/
def findTriple : List Char → Option (List Char × List Char)
  | [] => none
  | c :: rest =>
    match stripTicks3 (c :: rest) with
    | some r => some ([], r)
    | none => (findTriple rest).map (fun p => (c :: p.1, p.2))

def opFenceJson : List Char := [tick, tick, tick, 'j', 's', 'o', 'n']

def opFence : List Char := [tick, tick, tick]

/-- First match of `/op\s*([\s\S]*?)```/` (with `/i` for the literal `op`),
returning the captured group. -/
def findFence (op : List Char) : List Char → Option (List Char)
  | [] => none
  | c :: rest =>
    match stripPrefixCI op (c :: rest) with
    | some after =>
      match findTriple (after.dropWhile jsSpace) with
      | some p => some p.1
      | none => findFence op rest
    | none => findFence op rest

/-- Suffix of the input starting at its first brace-open character. -/
def fromFirstOpen : List Char → Option (List Char)
  | [] => none
  | c :: rest => if c = '{' then some (c :: rest) else fromFirstOpen rest

/-- Prefix of the input ending at its last brace-close character. -/
def upToLastClose : List Char → Option (List Char)
  | [] => none
  | c :: rest =>
    match upToLastClose rest with
    | some t => some (c :: t)
    | none => if c = '}' then some [c] else none

/-- `candidate.match(/\{[\s\S]*\}/)`: from the first opening brace (that has
some closing brace after it) to the last closing brace. -/
def objMatchChars (cs : List Char) : Option (List Char) :=
  match fromFirstOpen cs with
  | none => none
  | some s =>
    match s with
    | [] => none
    | c :: tail => (upToLastClose tail).map (fun t => c :: t)

/-- The string `safeParseReview` hands to `JSON.parse`, extracted from the
already-trimmed model text: first fenced block if any, else the whole text;
then the brace-delimited substring if any. -/
def extractJsonChars (t : List Char) : List Char :=
  let fence : Option (List Char) :=
    match findFence opFenceJson t with
    | some cap => some cap
    | none => findFence opFence t
  let candidate : List Char :=
    match fence with
    | some cap => cap
    | none => t
  match objMatchChars candidate with
  | some m => m
  | none => candidate

/-! ### File-path normalization -/

/-- `s.replace(/^pre/, '')` for a literal prefix. -/
def stripLit (pre : List Char) (cs : List Char) : List Char :=
  if cs.take pre.length = pre then cs.drop pre.length else cs

/-- `.replace(/^a\//, '').replace(/^b\//, '')`. -/
def stripDiffPrefix (cs : List Char) : List Char :=
  stripLit ['b', '/'] (stripLit ['a', '/'] cs)

/-- `.replace(/^\.\/+|^\/+/, '')`: one replacement of either a leading
`./` (with any further slashes) or a leading run of slashes. -/
def stripDotOrSlash (cs : List Char) : List Char :=
  if cs.take 2 = ['.', '/'] then (cs.drop 1).dropWhile (· = '/')
  else if cs.take 1 = ['/'] then cs.dropWhile (· = '/')
  else cs

/-- The path normalization chain in `safeParseReview` (line 270). -/
def normalizeIssuePath (cs : List Char) : List Char :=
  stripDotOrSlash (stripDiffPrefix cs)

/-- The cleaning chain in `toAbsolutePath` (lines 340-344): same prefixes,
stripped by four successive `replace` calls. -/
def cleanedPath (cs : List Char) : List Char :=
  let c1 := stripDiffPrefix cs
  let c2 := if c1.take 2 = ['.', '/'] then (c1.drop 1).dropWhile (· = '/') else c1
  if c2.take 1 = ['/'] then c2.dropWhile (· = '/') else c2

/-- `toAbsolutePath` (POSIX `path` semantics; `path.join` is modelled as
plain concatenation — `..` segment normalization never arises in the
claims).  `cleanedPath` strips every leading slash, so the `isAbsolute`
branch is kept only for fidelity. -/
def toAbsolutePath (p : String) (workspaceRoot : String) : String :=
  if p = "" then workspaceRoot
  else
    let cleaned : String := ⟨cleanedPath p.data⟩
    if cleaned.data.take 1 = ['/'] then cleaned
    else if cleaned = "" then workspaceRoot
    else workspaceRoot ++ "/" ++ cleaned

/-! ### Issue coercion (`safeParseReview` success path) -/

structure ReviewResult where
  summary : String
  issues : List Json

def sevEnum : List String := ["blocker", "major", "nit"]

/-- `Number(v) || d`: the default replaces `NaN` and `0` (both falsy). -/
def numOr (d : JsNum) (v : Option Json) : JsNum :=
  match jsToNumber v with
  | none => d
  | some n => if n.num = 0 then d else n

/-- `it.startLine = Math.max(1, Number(it.startLine) || 1)`. -/
def coercedStart (fs : List (String × Json)) : JsNum :=
  JsNum.maxJ 1 (numOr 1 (Json.lookupF fs "startLine"))

/-- `it.endLine = Math.max(it.startLine, Number(it.endLine) || it.startLine)`
(`it.startLine` reads the already-updated value). -/
def coercedEnd (fs : List (String × Json)) : JsNum :=
  JsNum.maxJ (coercedStart fs) (numOr (coercedStart fs) (Json.lookupF fs "endLine"))

/-- `if (!['blocker','major','nit'].includes(it.severity)) it.severity = 'major'`
(`includes` uses strict equality, so any non-string value fails it). -/
def coercedSev (fs : List (String × Json)) : String :=
  match Json.lookupF fs "severity" with
  | some (.str s) => if s ∈ sevEnum then s else "major"
  | _ => "major"

/-- `it.file = String(it.file || '').trim()` then the prefix-stripping. -/
def coercedFile (fs : List (String × Json)) : String :=
  let f0 : String :=
    match Json.lookupF fs "file" with
    | some v => if jsTruthy v then jsToString v else ""
    | none => ""
  ⟨normalizeIssuePath (jsTrimList f0.data)⟩

/-- The in-place coercion the source applies to one entry of the issues
array.  A `null` or primitive entry makes the strict-mode property write
throw (`none`); an array entry behaves like an empty object for the four
named fields (the mutated array is observably equal to the record below at
every later field access). -/
def coerceIssue (it : Json) : Option Json :=
  match it with
  | .obj fs =>
    some (.obj (Json.objInsert (Json.objInsert (Json.objInsert (Json.objInsert fs
      "startLine" (.num (coercedStart fs))) "endLine" (.num (coercedEnd fs)))
      "severity" (.str (coercedSev fs))) "file" (.str (coercedFile fs))))
  | .arr _ =>
    some (.obj [("startLine", .num 1), ("endLine", .num 1),
                ("severity", .str "major"), ("file", .str "")])
  | _ => none

/-- The coercion loop over the issues array; the first throwing entry
aborts the whole `try` block. -/
def coerceIssues : List Json → Option (List Json)
  | [] => some []
  | x :: xs =>
    match coerceIssue x with
    | none => none
    | some y =>
      match coerceIssues xs with
      | none => none
      | some ys => some (y :: ys)

def summaryOf (j : Json) : String :=
  match jsGetField j "summary" with
  | some v => if jsTruthy v then jsToString v else ""
  | none => ""

def Json.isNull : Json → Bool
  | .null => true
  | _ => false

/-- `Array.isArray(parsed.issues) ? parsed.issues : []`. -/
def issuesArrOf (j : Json) : List Json :=
  match jsGetField j "issues" with
  | some (.arr a) => a
  | _ => []

/-- The body of `safeParseReview`'s `try` block applied to the parsed value:
`none` is a thrown error (recovered by the `catch`). -/
def parseFromJson (j : Json) : Option ReviewResult :=
  if j.isNull then none   -- `parsed.issues` on null throws a TypeError
  else
    match coerceIssues (issuesArrOf j) with
    | some issues => some ⟨summaryOf j, issues⟩
    | none => none

def fallbackResult (t : List Char) : ReviewResult :=
  ⟨⟨t.take 800⟩, []⟩

/-- `safeParseReview`: extract, parse, coerce; on any parse/coercion throw,
fall back to the first 800 characters of the trimmed text with no issues. -/
def safeParseReview (modelText : String) : ReviewResult :=
  let text := jsTrimList modelText.data
  let jsonStr := extractJsonChars text
  match jsonParseChars jsonStr with
  | none => fallbackResult text
  | some parsed =>
    match parseFromJson parsed with
    | some r => r
    | none => fallbackResult text

/-! ### Spec filter (`filterIssuesAgainstSpec`) -/

def patRequire : List Char := ['r', 'e', 'q', 'u', 'i', 'r', 'e']

def patExclamation : List Char :=
  ['e', 'x', 'c', 'l', 'a', 'm', 'a', 't', 'i', 'o', 'n']

def patMark : List Char := ['m', 'a', 'r', 'k']

/-- `\s+`: at least one whitespace character, consumed greedily. -/
def dropWs1 : List Char → Option (List Char)
  | [] => none
  | c :: rest => if jsSpace c then some (rest.dropWhile jsSpace) else none

/-- `(\d+)`: at least one ASCII digit, consumed greedily. -/
def digits1 (cs : List Char) : Option (List Char × List Char) :=
  match cs with
  | c :: _ =>
    if c.isDigit then some (cs.takeWhile Char.isDigit, cs.dropWhile Char.isDigit)
    else none
  | [] => none

/-- Match `/require\s+(\d+)\s+exclamation\s*marks?/i` at the head of the
input, returning `Number` of the captured digits.  (The optional `s?` and
anything after `mark` do not affect acceptance.) -/
def matchRuleAt (cs : List Char) : Option Nat :=
  match stripPrefixCI patRequire cs with
  | none => none
  | some r1 =>
    match dropWs1 r1 with
    | none => none
    | some r2 =>
      match digits1 r2 with
      | none => none
      | some (ds, r3) =>
        match dropWs1 r3 with
        | none => none
        | some r4 =>
          match stripPrefixCI patExclamation r4 with
          | none => none
          | some r5 =>
            match stripPrefixCI patMark (r5.dropWhile jsSpace) with
            | none => none
            | some _ => some (digitsToNat ds)

/-- Leftmost match of the exclamation rule in the acceptance text. -/
def findRule : List Char → Option Nat
  | [] => none
  | c :: rest =>
    match matchRuleAt (c :: rest) with
    | some n => some n
    | none => findRule rest

/-- `/pat/i.test(input)` for a literal lowercase pattern. -/
def containsSubCI (pat : List Char) : List Char → Bool
  | [] => (stripPrefixCI pat []).isSome
  | c :: rest => (stripPrefixCI pat (c :: rest)).isSome || containsSubCI pat rest

def countBangs (line : List Char) : Nat :=
  line.countP (· = '!')

/-- `text.split('\n')` on character lists. -/
def splitNl : List Char → List (List Char)
  | [] => [[]]
  | c :: rest =>
    match splitNl rest with
    | l :: ls => if c = '\n' then [] :: l :: ls else (c :: l) :: ls
    | [] => [[]]

/-- `text.split('\n')[Math.max(0, startLine - 1)] ?? ''`: only an integral
index addresses an array element; a fractional index (e.g. `arr[1.5]`)
reads `undefined`, which `?? ''` turns into the empty string. -/
def lineAt (text : String) (sl : JsNum) : String :=
  let i := JsNum.maxJ 0 (JsNum.subOne sl)
  if i.num % (i.den : Int) = 0 then
    ⟨(splitNl text.data).getD (i.num / (i.den : Int)).toNat []⟩
  else ""

/-- The single flagged line the filter inspects:
`text.split('\n')[Math.max(0, it.startLine - 1)] ?? ''` (a non-numeric
`startLine` produces a NaN index, which reads `undefined`). -/
def issueLine (it : Json) (t : String) : String :=
  match jsToNumber (jsGetField it "startLine") with
  | some n => lineAt t n
  | none => ""

/-- The filter's per-issue predicate (`true` = keep).  The loaded-text map
is keyed by the issue's `file` string (non-string `file` values never
obtain a loaded text and are kept — in the source such issues either threw
earlier at `toAbsolutePath` or carry a falsy key that can only be looked
up back to itself). -/
def keepIssue (required : Nat) (fileTextByPath : List (String × String))
    (it : Json) : Bool :=
  let text : Option String :=
    match jsGetField it "file" with
    | some (.str s) => fileTextByPath.lookup s
    | _ => none
  match text with
  | none => true                  -- `!text`: unavailable, keep (fail-open)
  | some t =>
    if t = "" then true           -- `!text` is also true for the empty string
    else
      let cnt := countBangs (issueLine it t).data
      let mentions :=
        containsSubCI patExclamation (jsToStringU (jsGetField it "message")).data
      !((cnt == required) && mentions)

def filterIssuesAgainstSpec (issues : List Json) (acceptance : String)
    (fileTextByPath : List (String × String)) : List Json :=
  match findRule acceptance.data with
  | none => issues
  | some required => issues.filter (keepIssue required fileTextByPath)

/-! ### HTML escaping (`escapeHtml`) -/

def escapeHtmlChar (c : Char) : List Char :=
  if c = '&' then "&amp;".data
  else if c = '<' then "&lt;".data
  else if c = '>' then "&gt;".data
  else if c = '"' then "&quot;".data
  else if c = apos then "&#39;".data
  else [c]

/-- `s.replace(/[&<>"']/g, m => ({...}[m]))`: per-character replacement. -/
def escapeHtml (s : String) : String :=
  ⟨(s.data.map escapeHtmlChar).flatten⟩

/-! ### `JSON.stringify` and the review panel HTML (`showReviewPanel`) -/

def hexDigitChar (n : Nat) : Char :=
  if n < 10 then Char.ofNat (48 + n) else Char.ofNat (87 + n)

/-- The escape `JSON.stringify` applies inside a string literal: only `"`,
backslash and control characters — notably NOT `<`, `>` or `/`. -/
def jsonEscapeChar (c : Char) : List Char :=
  if c = '"' then ['\\', '"']
  else if c = '\\' then ['\\', '\\']
  else if c = '\x08' then ['\\', 'b']
  else if c = '\t' then ['\\', 't']
  else if c = '\n' then ['\\', 'n']
  else if c = '\x0c' then ['\\', 'f']
  else if c = '\r' then ['\\', 'r']
  else if c.toNat < 32 then
    ['\\', 'u', '0', '0', hexDigitChar (c.toNat / 16), hexDigitChar (c.toNat % 16)]
  else [c]

def jsonQuoteString (s : String) : String :=
  "\"" ++ ⟨(s.data.map jsonEscapeChar).flatten⟩ ++ "\""

mutual

/-- `JSON.stringify(v)` (no replacer/indent; the argument at the use site
is always a defined JSON value). -/
def jsonStringify : Json → String
  | .null => "null"
  | .bool b => if b then "true" else "false"
  | .num q => jsNumToString q
  | .str s => jsonQuoteString s
  | .arr xs => "[" ++ jsonStringifyElems xs ++ "]"
  | .obj fs => "\x7b" ++ jsonStringifyFields fs ++ "\x7d"

def jsonStringifyElems : List Json → String
  | [] => ""
  | [x] => jsonStringify x
  | x :: xs => jsonStringify x ++ "," ++ jsonStringifyElems xs

def jsonStringifyFields : List (String × Json) → String
  | [] => ""
  | [(k, v)] => jsonQuoteString k ++ ":" ++ jsonStringify v
  | (k, v) :: fs =>
    jsonQuoteString k ++ ":" ++ jsonStringify v ++ "," ++ jsonStringifyFields fs

end

/-- `escapeHtml(x || '')`: a falsy value yields the empty string; a truthy
non-string value makes `s.replace` throw (strings go through `escapeHtml`;
`escapeHtml '' = ''` covers the falsy-string case). -/
def escapeHtmlOrEmpty (v : Option Json) : Except String String :=
  match v with
  | some (.str s) => .ok (escapeHtml s)
  | some w => if jsTruthy w then .error "s.replace is not a function" else .ok ""
  | none => .ok ""

/-- `escapeHtml(x)` on a directly supplied value (`it.severity`): anything
but a string makes `s.replace` throw. -/
def escapeHtmlStrict (v : Option Json) : Except String String :=
  match v with
  | some (.str s) => .ok (escapeHtml s)
  | _ => .error "s.replace is not a function"

/-- The severity badge colour (strict `===` comparisons, so non-string
severities fall through to the default). -/
def badgeColor (v : Option Json) : String :=
  match v with
  | some (.str s) =>
    if s = "blocker" then "#b00020"
    else if s = "major" then "#c77800"
    else "#5e6ad2"
  | _ => "#5e6ad2"

/-- `it.suggestion ? \u{60}...${escapeHtml(it.suggestion)}...\u{60} : ''`. -/
def sugBlock (v : Option Json) : Except String String :=
  match v with
  | none => .ok ""
  | some w =>
    if jsTruthy w then
      match w with
      | .str s => .ok ("\n      <div style=\"margin-top:8px\">\n        <div style=\"opacity:.7;font-size:12px\">Suggestion</div>\n        <pre style=\"white-space:pre-wrap;background:#0001;padding:8px;border-radius:8px\">" ++ escapeHtml s ++ "</pre>\n      </div>")
      | _ => .error "s.replace is not a function"
    else .ok ""

/-- One entry of the `items` template: evaluation order `file`, `msg`,
`sug`, then the template itself (whose first escape call is on
`it.severity`); the first throw aborts `showReviewPanel`.  A `null` entry
throws at the first property read. -/
def panelItem (i : Nat) (it : Json) : Except String String :=
  match it with
  | .null => .error "Cannot read properties of null"
  | _ =>
    let badge := badgeColor (jsGetField it "severity")
    match escapeHtmlOrEmpty (jsGetField it "file") with
    | .error e => .error e
    | .ok file =>
      match escapeHtmlOrEmpty (jsGetField it "message") with
      | .error e => .error e
      | .ok msg =>
        match sugBlock (jsGetField it "suggestion") with
        | .error e => .error e
        | .ok sug =>
          match escapeHtmlStrict (jsGetField it "severity") with
          | .error e => .error e
          | .ok sev =>
            .ok ("\n      <div style=\"border:1px solid #0002;border-radius:12px;padding:12px;margin:12px 0\">\n        <div style=\"display:flex;gap:8px;align-items:center;margin-bottom:6px\">\n          <span style=\"display:inline-block;background:" ++ badge ++ ";color:white;border-radius:999px;padding:2px 8px;font-size:12px;text-transform:uppercase\">" ++ sev ++ "</span>\n          <code style=\"opacity:.9\">" ++ file ++ ":" ++ jsToStringU (jsGetField it "startLine") ++ "-" ++ jsToStringU (jsGetField it "endLine") ++ "</code>\n          <button data-i=\"" ++ toString i ++ "\" style=\"margin-left:auto;padding:4px 10px;border-radius:8px;border:1px solid #0002;background:#0001;cursor:pointer\">Open</button>\n        </div>\n        <div>" ++ msg ++ "</div>\n        " ++ sug ++ "\n      </div>\n    ")

/-- `(review.issues || []).map((it, i) => ...).join('')`. -/
def panelItems (i : Nat) : List Json → Except String String
  | [] => .ok ""
  | x :: xs =>
    match panelItem i x with
    | .error e => .error e
    | .ok s =>
      match panelItems (i + 1) xs with
      | .error e => .error e
      | .ok rest => .ok (s ++ rest)

/-- Everything of the panel template before the `items` splice (summary
escaped, issue-count header or no-issues paragraph). -/
def panelHead (r : ReviewResult) : String :=
  "\n    <div style=\"font-family: system-ui, -apple-system, Segoe UI, Roboto, Helvetica, Arial; padding:16px; line-height:1.5\">\n      <h2 style=\"margin:0 0 8px 0\">AI Review</h2>\n      <pre style=\"white-space:pre-wrap;background:#0001;padding:12px;border-radius:12px\">" ++
  escapeHtml (if r.summary = "" then "No summary" else r.summary) ++
  "</pre>\n      " ++
  (if r.issues.length = 0 then
    "<p style=\"opacity:.7;margin-top:12px\">No issues reported.</p>"
  else
    "<h3 style=\"margin:16px 0 8px\">Issues (" ++ toString r.issues.length ++ ")</h3>") ++
  "\n      "

/-- The template between the `items` splice and the
`JSON.stringify(review.issues || [])` splice inside the inline script. -/
def panelMid : String :=
  "\n      <script>\n        const vscode = acquireVsCodeApi();\n        const btns = document.querySelectorAll('button[data-i]');\n        btns.forEach(b => b.addEventListener('click', () => \x7b\n          const i = Number(b.getAttribute('data-i'));\n          const it = "

/-- The template after the `JSON.stringify` splice. -/
def panelTail : String :=
  "[i];\n          vscode.postMessage(\x7b cmd: 'open', file: it.file, startLine: it.startLine, endLine: it.endLine \x7d);\n        \x7d));\n      </script>\n    </div>\n  "

/-- The webview HTML `showReviewPanel` assigns (the `review.issues || []`
and `review.issues?.length` guards are evaluated on a genuine array, as
both `getReview` branches produce one).  An `escapeHtml` throw on a
non-string field aborts the whole assignment. -/
def showReviewPanelHtml (r : ReviewResult) : Except String String :=
  match panelItems 0 r.issues with
  | .error e => .error e
  | .ok items =>
    .ok (panelHead r ++ items ++ panelMid ++ jsonStringify (.arr r.issues) ++ panelTail)

/-- Exact (case-sensitive) prefix stripping. -/
def stripPrefixExact : List Char → List Char → Option (List Char)
  | [], rest => some rest
  | _ :: _, [] => none
  | p :: ps, c :: cs => if c = p then stripPrefixExact ps cs else none

/-- Exact (case-sensitive) substring test. -/
def containsSub (pat : List Char) : List Char → Bool
  | [] => (stripPrefixExact pat []).isSome
  | c :: rest => (stripPrefixExact pat (c :: rest)).isSome || containsSub pat rest

/-! ### Inference client (`ensureOllamaReady`, `getReview`)

A `fetch` call is an oracle value: `none` models a rejected promise
(network failure); a `FetchResult` carries the HTTP status, the outcome of
`res.json()` (`none` = parse throw) and of `res.text()` (`none` = read
throw).  Thrown-error message texts that the source does not construct
itself (TypeErrors, fetch/stream failures) are modelled by fixed
descriptive strings; no claim depends on them. -/

structure FetchResult where
  ok : Bool
  status : Nat
  jsonBody : Option Json
  textBody : Option String

/-- `safeText`: best-effort body text. -/
def safeText (r : FetchResult) : String :=
  r.textBody.getD "<no body>"

def serveMsg : String :=
  "Ollama server not reachable at 127.0.0.1:11434. Run `ollama serve`."

def notFoundMsg (model : String) : String :=
  "Model \"" ++ model ++ "\" not found in Ollama. Run: ollama pull " ++ model

/-- `models.some(m => m.name === model)`: short-circuiting; a `null` element
throws on the `m.name` read. -/
def anyNameEq (model : String) : List Json → Except String Bool
  | [] => .ok false
  | e :: rest =>
    match e with
    | .null => .error "Cannot read properties of null (reading name)"
    | .obj fs =>
      match Json.lookupF fs "name" with
      | some (.str s) => if s = model then .ok true else anyNameEq model rest
      | _ => anyNameEq model rest
    | _ => anyNameEq model rest       -- primitive element: .name is undefined

/-- `!!json?.models?.some(m => m.name === model)`: the optional chains
short-circuit on null/undefined; calling `.some` on a non-array throws. -/
def hasModelCheck (j : Json) (model : String) : Except String Bool :=
  match j with
  | .null => .ok false
  | _ =>
    match jsGetField j "models" with
    | none => .ok false
    | some .null => .ok false
    | some (.arr xs) => anyNameEq model xs
    | some _ => .error "json.models.some is not a function"

def tagsUrl : String := "http://127.0.0.1:11434/api/tags"

def generateUrl : String := "http://127.0.0.1:11434/api/generate"

/-- `ensureOllamaReady`: the `try` wraps only the fetch and the JSON body
read, so both failure modes produce the "run ollama serve" message; the
HTTP status is never consulted. -/
def ensureOllamaReady (model : String) (tags : Option FetchResult) :
    Except String Unit :=
  match tags with
  | none => .error serveMsg
  | some r =>
    match r.jsonBody with
    | none => .error serveMsg
    | some j =>
      match hasModelCheck j model with
      | .error e => .error e
      | .ok true => .ok ()
      | .ok false => .error (notFoundMsg model)

/-- One line of the Ollama stream:
`try { return JSON.parse(line).response as string } catch { return '' }`,
as later stringified by `join('')` (`undefined`/`null` join as `''`). -/
def ollamaLineText (line : String) : String :=
  match jsonParse line with
  | none => ""
  | some .null => ""                  -- null.response throws, caught
  | some j =>
    match jsGetField j "response" with
    | none => ""
    | some v => jsJoinElemString v

/-- `text.split('\n').filter(Boolean).map(...).join('')`. -/
def ollamaCombine (body : String) : String :=
  String.join (((body.splitOn "\n").filter (fun l => l ≠ "")).map ollamaLineText)

/-- Externally visible actions of one command invocation. -/
inductive Effect where
  | errorMsg (s : String)
  | infoMsg (s : String)
  | netGet (url : String)
  | netPost (url : String)
  | openDoc (path : String)
  | panel (r : ReviewResult)
  | diags (groups : List (String × Nat))

/-- The remote branch of `getReview`:
`{ summary: String(data.summary || ''), issues: (data.issues || []) }` — no
per-issue coercion at all.  A truthy non-array `issues` value is returned
raw by the source and makes the pipeline throw at its first use as an
array; it is modelled as that error at this boundary. -/
def remoteShape (data : Json) : Except String ReviewResult :=
  match data with
  | .null => .error "Cannot read properties of null (reading summary)"
  | _ =>
    let summary : String :=
      match jsGetField data "summary" with
      | some v => if jsTruthy v then jsToString v else ""
      | none => ""
    match jsGetField data "issues" with
    | some (.arr xs) => .ok ⟨summary, xs⟩
    | some v => if jsTruthy v then .error "review.issues is not iterable"
                else .ok ⟨summary, []⟩
    | none => .ok ⟨summary, []⟩

/-- `getReview`: local Ollama path when no `remoteUrl` is configured, else
the remote proxy path.  Returns the network calls made and the result. -/
def getReview (model remoteUrl : String)
    (tags generate remote : Option FetchResult) :
    List Effect × Except String ReviewResult :=
  if remoteUrl = "" then
    match ensureOllamaReady model tags with
    | .error e => ([.netGet tagsUrl], .error e)
    | .ok _ =>
      match generate with
      | none => ([.netGet tagsUrl, .netPost generateUrl], .error "fetch failed")
      | some res =>
        if !res.ok then
          ([.netGet tagsUrl, .netPost generateUrl],
           .error ("Ollama HTTP " ++ toString res.status ++ ": " ++ safeText res))
        else
          match res.textBody with
          | none => ([.netGet tagsUrl, .netPost generateUrl],
                     .error "failed to read response body")
          | some body =>
            ([.netGet tagsUrl, .netPost generateUrl],
             .ok (safeParseReview (ollamaCombine body)))
  else
    match remote with
    | none => ([.netPost remoteUrl], .error "fetch failed")
    | some res =>
      if !res.ok then
        ([.netPost remoteUrl],
         .error ("Remote reviewer HTTP " ++ toString res.status ++ ": " ++ safeText res))
      else
        match res.jsonBody with
        | none => ([.netPost remoteUrl], .error "failed to parse response body as JSON")
        | some data => ([.netPost remoteUrl], remoteShape data)

/-! ### The command pipeline (`activate`'s registered command body) -/

structure Env where
  workspaceOpen : Bool
  gitOk : Bool
  diff : String
  acceptance : String
  cfgModel : String        -- "" models an unset setting (both are falsy)
  cfgRemoteUrl : String
  tags : Option FetchResult
  generate : Option FetchResult
  remote : Option FetchResult
  docText : String → Option String  -- openTextDocument oracle, by absolute path
  root : String

/-- JS `Map.set`: overwrite in place or append. -/
def mapSet (m : List (String × String)) (k v : String) :
    List (String × String) :=
  if m.any (fun p => p.1 = k) then
    m.map (fun p => if p.1 = k then (k, v) else p)
  else m ++ [(k, v)]

/-- `toAbsolutePath(it.file, root)` on the raw `file` field value: falsy
values take the `!p` early return; a truthy non-string value has no
`.replace` method and throws.  This call sits outside the per-issue
`try`, so the throw aborts the whole pipeline. -/
def absOfFileVal (fv : Option Json) (root : String) : Except String String :=
  match fv with
  | none => .ok root
  | some .null => .ok root
  | some (.bool false) => .ok root
  | some (.bool true) => .error "p.replace is not a function"
  | some (.num n) => if n = 0 then .ok root else .error "p.replace is not a function"
  | some (.str s) => .ok (toAbsolutePath s root)
  | some (.arr _) => .error "p.replace is not a function"
  | some (.obj _) => .error "p.replace is not a function"

/-- The document-loading loop before the spec filter: opens each issue's
file and records its text keyed by the issue's `file` string, skipping
issues whose document fails to open.  (A falsy non-string `file` key is
representable in a JS `Map` but can never carry a loaded text that the
filter's string-keyed lookup would need; such issues stay fail-open.) -/
def buildFileMapLoop (env : Env) (issues : List Json) (fx : List Effect)
    (m : List (String × String)) :
    Except (List Effect × String) (List Effect × List (String × String)) :=
  match issues with
  | [] => .ok (fx, m)
  | it :: rest =>
    match absOfFileVal (jsGetField it "file") env.root with
    | .error e => .error (fx, e)
    | .ok abs =>
      let fx' := fx ++ [Effect.openDoc abs]
      match jsGetField it "file", env.docText abs with
      | some (.str s), some t => buildFileMapLoop env rest fx' (mapSet m s t)
      | _, _ => buildFileMapLoop env rest fx' m

def buildFileMap (env : Env) (issues : List Json) :
    Except (List Effect × String) (List Effect × List (String × String)) :=
  buildFileMapLoop env issues [] []

def bumpGroup (acc : List (String × Nat)) (k : String) : List (String × Nat) :=
  if acc.any (fun p => p.1 = k) then
    acc.map (fun p => if p.1 = k then (k, p.2 + 1) else p)
  else acc ++ [(k, 1)]

/-- `publishDiagnostics`, abstracted to the per-file issue counts it
replaces the diagnostics collection with (the per-diagnostic range and
severity mapping is not touched by any claim). -/
def groupDiagsLoop (root : String) (issues : List Json)
    (acc : List (String × Nat)) : Except String (List (String × Nat)) :=
  match issues with
  | [] => .ok acc
  | it :: rest =>
    match absOfFileVal (jsGetField it "file") root with
    | .error e => .error e
    | .ok abs => groupDiagsLoop root rest (bumpGroup acc abs)

def groupDiags (root : String) (issues : List Json) :
    Except String (List (String × Nat)) :=
  groupDiagsLoop root issues []

/-- The registered command body: workspace guard, acceptance/diff reading,
empty-diff early exit, `getReview`, document loading, spec filter, panel
and diagnostics publication; every throw inside the progress callback is
caught once and surfaced as a single `AI Review failed:` notification.
(The panel effect carries the summary/issue data; its HTML rendering is
modelled by `escapeHtml` separately.) -/
def runReview (env : Env) : List Effect :=
  if !env.workspaceOpen then [.errorMsg "Open a folder/workspace first."]
  else if !env.gitOk then [.errorMsg "AI Review failed: Git not found in PATH."]
  else if jsTrimStr env.diff = "" then
    [.infoMsg "No local changes (git diff is empty)."]
  else
    let model := if env.cfgModel = "" then "llama3.1:8b" else env.cfgModel
    let (netFx, res) :=
      getReview model env.cfgRemoteUrl env.tags env.generate env.remote
    match res with
    | .error e => netFx ++ [.errorMsg ("AI Review failed: " ++ e)]
    | .ok review =>
      match buildFileMap env review.issues with
      | .error (fx, e) => netFx ++ fx ++ [.errorMsg ("AI Review failed: " ++ e)]
      | .ok (fx, fmap) =>
        let issues := filterIssuesAgainstSpec review.issues env.acceptance fmap
        let rev : ReviewResult := ⟨review.summary, issues⟩
        match groupDiags env.root issues with
        | .error e => netFx ++ fx ++ [.panel rev, .errorMsg ("AI Review failed: " ++ e)]
        | .ok groups =>
          netFx ++ fx ++
            [.panel rev, .diags groups,
             .infoMsg ("AI Review complete: " ++ toString issues.length ++ " issue(s).")]

/-! ## Helper lemmas -/

theorem lookupF_objInsert_self (fs : List (String × Json)) (k : String) (v : Json) :
    Json.lookupF (Json.objInsert fs k v) k = some v := by
  induction fs with
  | nil => simp [Json.objInsert, Json.lookupF]
  | cons p rest ih =>
    by_cases h : p.1 = k
    · simp [Json.objInsert, h, Json.lookupF]
    · simp [Json.objInsert, h, Json.lookupF, ih]

theorem lookupF_objInsert_ne (fs : List (String × Json)) (k k' : String) (v : Json)
    (h : k' ≠ k) : Json.lookupF (Json.objInsert fs k v) k' = Json.lookupF fs k' := by
  induction fs with
  | nil => simp [Json.objInsert, Json.lookupF, Ne.symm h]
  | cons p rest ih =>
    rcases p with ⟨pk, pv⟩
    by_cases hp : pk = k
    · simp [Json.objInsert, hp, Json.lookupF, Ne.symm h]
    · by_cases hp' : pk = k'
      · simp [Json.objInsert, hp, Json.lookupF, hp', h]
      · simp [Json.objInsert, hp, Json.lookupF, hp', ih]

theorem coercedSev_mem (fs : List (String × Json)) : coercedSev fs ∈ sevEnum := by
  unfold coercedSev
  split
  · split_ifs with hs
    · exact hs
    · simp [sevEnum]
  · simp [sevEnum]

/-- Every character emitted by `escapeHtmlChar` for a special character is
harmless, and a non-special character passes through only itself. -/
theorem escapeHtmlChar_safe (x c : Char) (h : c ∈ escapeHtmlChar x) :
    c ≠ '<' ∧ c ≠ '>' ∧ c ≠ '"' ∧ c ≠ apos := by
  unfold escapeHtmlChar at h
  split_ifs at h with h1 h2 h3 h4 h5
  · rw [show ("&amp;" : String).data = ['&', 'a', 'm', 'p', ';'] from rfl] at h
    simp at h
    rcases h with rfl | rfl | rfl | rfl | rfl <;>
      exact ⟨by decide, by decide, by decide, by decide⟩
  · rw [show ("&lt;" : String).data = ['&', 'l', 't', ';'] from rfl] at h
    simp at h
    rcases h with rfl | rfl | rfl | rfl <;>
      exact ⟨by decide, by decide, by decide, by decide⟩
  · rw [show ("&gt;" : String).data = ['&', 'g', 't', ';'] from rfl] at h
    simp at h
    rcases h with rfl | rfl | rfl | rfl <;>
      exact ⟨by decide, by decide, by decide, by decide⟩
  · rw [show ("&quot;" : String).data = ['&', 'q', 'u', 'o', 't', ';'] from rfl] at h
    simp at h
    rcases h with rfl | rfl | rfl | rfl | rfl | rfl <;>
      exact ⟨by decide, by decide, by decide, by decide⟩
  · rw [show ("&#39;" : String).data = ['&', '#', '3', '9', ';'] from rfl] at h
    simp at h
    rcases h with rfl | rfl | rfl | rfl | rfl <;>
      exact ⟨by decide, by decide, by decide, by decide⟩
  · simp at h
    subst h
    exact ⟨h2, h3, h4, h5⟩

/-! ## Claim theorems -/

/-- C6: for every acceptance text in which the pattern
`require N exclamation mark(s)` (case-insensitive) does not occur, and for
every issue list and every map of loaded file texts, the Spec Filter
returns the issue list unchanged. -/
theorem claim_C6_filter_identity (acceptance : String) (issues : List Json)
    (m : List (String × String)) (h : findRule acceptance.data = none) :
    filterIssuesAgainstSpec issues acceptance m = issues := by
  unfold filterIssuesAgainstSpec
  rw [h]

/-- C6 witness: a concrete acceptance text without the pattern leaves a
concrete issue list untouched. -/
theorem claim_C6_filter_identity_witness :
    findRule ("Be precise and kind." : String).data = none ∧
    filterIssuesAgainstSpec [Json.str "issue"] "Be precise and kind." [("a", "b")] =
      [Json.str "issue"] :=
  ⟨by decide, claim_C6_filter_identity _ _ _ (by decide)⟩

/-- C8: a path that starts with none of the prefixes `a/`, `b/`, `./`, `/`
is returned unchanged both by the issue-path normalization in
`safeParseReview` and by the cleaning chain in `toAbsolutePath`; in that
sense normalizing an already-normalized path is a no-op. -/
theorem claim_C8_normalize_idempotent (p : String)
    (ha : p.data.take 2 ≠ ['a', '/']) (hb : p.data.take 2 ≠ ['b', '/'])
    (hd : p.data.take 2 ≠ ['.', '/']) (hs : p.data.take 1 ≠ ['/']) :
    normalizeIssuePath p.data = p.data ∧ cleanedPath p.data = p.data := by
  have hA : stripLit ['a', '/'] p.data = p.data := by
    simp only [stripLit, List.length_cons, List.length_nil]
    rw [if_neg ha]
  have hB : stripLit ['b', '/'] p.data = p.data := by
    simp only [stripLit, List.length_cons, List.length_nil]
    rw [if_neg hb]
  have hDiff : stripDiffPrefix p.data = p.data := by
    unfold stripDiffPrefix
    rw [hA, hB]
  constructor
  · unfold normalizeIssuePath stripDotOrSlash
    rw [hDiff, if_neg hd, if_neg hs]
  · simp only [cleanedPath]
    rw [hDiff, if_neg hd, if_neg hs]

/-- C8 witness: a concrete prefix-free path is left unchanged. -/
theorem claim_C8_normalize_idempotent_witness :
    normalizeIssuePath ("src/x.ts" : String).data = ("src/x.ts" : String).data ∧
    cleanedPath ("src/x.ts" : String).data = ("src/x.ts" : String).data :=
  claim_C8_normalize_idempotent "src/x.ts" (by decide) (by decide) (by decide) (by decide)

/-- C9: when the collected diff is the empty string, the pipeline emits
exactly the informational "no local changes" message: no network call, no
error, no panel. -/
theorem claim_C9_empty_diff_short_circuit (env : Env)
    (hw : env.workspaceOpen = true) (hg : env.gitOk = true) (hd : env.diff = "") :
    runReview env = [.infoMsg "No local changes (git diff is empty)."] ∧
    (∀ u, Effect.netGet u ∉ runReview env ∧ Effect.netPost u ∉ runReview env) ∧
    (∀ s, Effect.errorMsg s ∉ runReview env) := by
  have htrim : jsTrimStr env.diff = "" := by rw [hd]; rfl
  have h : runReview env = [.infoMsg "No local changes (git diff is empty)."] := by
    unfold runReview
    rw [hw, hg, htrim]
    simp
  refine ⟨h, fun u => ?_, fun s => ?_⟩
  · rw [h]
    exact ⟨by simp, by simp⟩
  · rw [h]
    simp

/-- C9 witness: a concrete environment with an empty diff. -/
def envEmptyDiff : Env :=
  ⟨true, true, "", "criteria", "m", "", none, none, none, fun _ => none, "/ws"⟩

theorem claim_C9_empty_diff_short_circuit_witness :
    envEmptyDiff.workspaceOpen = true ∧ envEmptyDiff.diff = "" ∧
    runReview envEmptyDiff = [.infoMsg "No local changes (git diff is empty)."] :=
  ⟨rfl, rfl, (claim_C9_empty_diff_short_circuit envEmptyDiff rfl rfl rfl).1⟩

/-- C10 (amended): `escapeHtml` maps each of the five special characters
to its HTML entity, leaves every other character unchanged, and its output
never contains a raw `<`, `>`, double-quote or single-quote character — so
the escaped summary/file/severity/message/suggestion interpolations are
markup-free; the panel HTML, however, additionally embeds
`JSON.stringify(review.issues || [])` verbatim inside its inline script
(stringify escapes only quotes, backslashes and control characters), so
model-supplied issue text still reaches the document unescaped and can
inject markup, refuting the original "cannot inject" conclusion. -/
theorem claim_C10_escapeHtml_safe :
    (escapeHtmlChar '&' = ("&amp;" : String).data ∧
     escapeHtmlChar '<' = ("&lt;" : String).data ∧
     escapeHtmlChar '>' = ("&gt;" : String).data ∧
     escapeHtmlChar '"' = ("&quot;" : String).data ∧
     escapeHtmlChar apos = ("&#39;" : String).data) ∧
    (∀ c : Char, c ≠ '&' → c ≠ '<' → c ≠ '>' → c ≠ '"' → c ≠ apos →
      escapeHtmlChar c = [c]) ∧
    (∀ s : String, ∀ c ∈ (escapeHtml s).data,
      c ≠ '<' ∧ c ≠ '>' ∧ c ≠ '"' ∧ c ≠ apos) ∧
    (∀ r html, showReviewPanelHtml r = .ok html →
      ∃ a b, html.data = a ++ (jsonStringify (.arr r.issues)).data ++ b) := by
  refine ⟨⟨by decide, by decide, by decide, by decide, by decide⟩, ?_, ?_, ?_⟩
  · intro c h1 h2 h3 h4 h5
    unfold escapeHtmlChar
    rw [if_neg h1, if_neg h2, if_neg h3, if_neg h4, if_neg h5]
  · intro s c hc
    have hc' : c ∈ (s.data.map escapeHtmlChar).flatten := hc
    rw [List.mem_flatten] at hc'
    obtain ⟨l, hl, hcl⟩ := hc'
    rw [List.mem_map] at hl
    obtain ⟨x, _, rfl⟩ := hl
    exact escapeHtmlChar_safe x c hcl
  · intro r html h
    cases hp : panelItems 0 r.issues with
    | error e =>
      have h2 : showReviewPanelHtml r = .error e := by
        unfold showReviewPanelHtml; rw [hp]
      rw [h2] at h
      exact absurd h (by simp)
    | ok items =>
      have h2 : showReviewPanelHtml r =
          .ok (panelHead r ++ items ++ panelMid ++
            jsonStringify (.arr r.issues) ++ panelTail) := by
        unfold showReviewPanelHtml; rw [hp]
      rw [h2] at h
      injection h with h3
      refine ⟨(panelHead r ++ items ++ panelMid).data, panelTail.data, ?_⟩
      rw [← h3]
      simp [String.data_append]

/-- C10 witness: a concrete dangerous string is escaped, its output is
free of raw markup characters, and a concrete panel HTML embeds its
issues' `JSON.stringify` output verbatim. -/
theorem claim_C10_escapeHtml_safe_witness :
    escapeHtml "<img src=x onerror='a'>" =
      "&lt;img src=x onerror=&#39;a&#39;&gt;" ∧
    ('<' ∈ ("<img" : String).data ∧
      ∀ c ∈ (escapeHtml "<img src=x onerror='a'>").data,
        c ≠ '<' ∧ c ≠ '>' ∧ c ≠ '"' ∧ c ≠ apos) ∧
    (∃ a b, (panelHead ⟨"", []⟩ ++ "" ++ panelMid ++
        jsonStringify (.arr []) ++ panelTail).data =
      a ++ (jsonStringify (.arr ([] : List Json))).data ++ b) :=
  ⟨by decide, ⟨by decide, fun c hc => claim_C10_escapeHtml_safe.2.2.1 _ c hc⟩,
   claim_C10_escapeHtml_safe.2.2.2 ⟨"", []⟩
     (panelHead ⟨"", []⟩ ++ "" ++ panelMid ++ jsonStringify (.arr []) ++ panelTail) rfl⟩

set_option maxRecDepth 10000

def rawInjText : String :=
  "\x7b\"summary\":\"s\",\"issues\":[\x7b\"file\":\"x.ts\",\"startLine\":1,\"endLine\":1,\"severity\":\"nit\",\"message\":\"</script><img src=x>\"\x7d]\x7d"

/-- C10 counterexample to the original "cannot inject markup" conclusion:
a model message containing a script-closing tag survives `safeParseReview`
untouched, and the produced panel HTML contains the raw
`</script><img src=x>` text (via the unescaped `JSON.stringify` splice in
the inline script, where the HTML parser would terminate the script and
parse the injected tag), even though `escapeHtml` itself would have
neutralised it. -/
theorem claim_C10_counterexample :
    (showReviewPanelHtml (safeParseReview rawInjText)).map
        (fun h => containsSub ("</script><img src=x>" : String).data h.data) =
      .ok true ∧
    escapeHtml "</script><img src=x>" = "&lt;/script&gt;&lt;img src=x&gt;" :=
  ⟨rfl, rfl⟩

/-- C3 counterexample: for the non-JSON raw text `" hello"` (note the
leading space) the parser returns the first 800 characters of the
*trimmed* text, which differs from the first 800 characters of the raw
text that the claim promises. -/
theorem claim_C3_counterexample :
    jsonParseChars (extractJsonChars (jsTrimList (" hello" : String).data)) = none ∧
    (safeParseReview " hello").summary = "hello" ∧
    (safeParseReview " hello").issues = [] ∧
    ("hello" : String) ≠ ⟨(" hello" : String).data.take 800⟩ := by
  refine ⟨rfl, rfl, rfl, by decide⟩

/-- C3 (amended): for every raw model text whose extracted candidate does
not parse as JSON, the Response Parser returns (without throwing) a result
whose summary is the first 800 characters of the **trimmed** raw text and
whose issues list is empty. -/
theorem claim_C3_parse_failure_fallback (raw : String)
    (h : jsonParseChars (extractJsonChars (jsTrimList raw.data)) = none) :
    safeParseReview raw = ⟨⟨(jsTrimList raw.data).take 800⟩, []⟩ := by
  simp only [safeParseReview]
  rw [h]
  rfl

/-- C3 witness: a concrete malformed raw text takes the fallback. -/
theorem claim_C3_parse_failure_fallback_witness :
    jsonParseChars (extractJsonChars (jsTrimList ("I had an error" : String).data)) = none ∧
    safeParseReview "I had an error" =
      ⟨⟨(jsTrimList ("I had an error" : String).data).take 800⟩, []⟩ :=
  ⟨rfl, claim_C3_parse_failure_fallback "I had an error" rfl⟩

/-- C4 counterexample: an HTTP 500 on `/api/tags` whose body is valid JSON
does **not** produce the "start the server" message — `ensureOllamaReady`
never consults the status, `res.json()` succeeds, and the absent `models`
array leads to the "model not found / ollama pull" message instead. -/
theorem claim_C4_counterexample :
    ensureOllamaReady "m"
        (some ⟨false, 500, some (.obj [("error", .str "boom")]), some "oops"⟩) =
      .error (notFoundMsg "m") ∧
    notFoundMsg "m" ≠ serveMsg ∧
    containsSubCI ("ollama serve" : String).data (notFoundMsg "m").data = false := by
  refine ⟨rfl, by decide, by decide⟩

/-- C4 (amended): the preflight produces the "run ollama serve" message
exactly when the `/api/tags` fetch rejects or its body fails to parse as
JSON — the HTTP status is never consulted; with a parseable body it
succeeds iff the catalog check finds the configured model, and otherwise
fails with the "model not found / ollama pull" message (or with the
catalog check's own thrown error). -/
theorem claim_C4_preflight_behavior :
    (∀ model, ensureOllamaReady model none = .error serveMsg) ∧
    (∀ model ok st tb,
      ensureOllamaReady model (some ⟨ok, st, none, tb⟩) = .error serveMsg) ∧
    (∀ model ok st j tb b, hasModelCheck j model = .ok b →
      ensureOllamaReady model (some ⟨ok, st, some j, tb⟩) =
        (if b then .ok () else .error (notFoundMsg model))) ∧
    (∀ model ok st j tb e, hasModelCheck j model = .error e →
      ensureOllamaReady model (some ⟨ok, st, some j, tb⟩) = .error e) := by
  refine ⟨fun model => rfl, fun model ok st tb => rfl, ?_, ?_⟩
  · intro model ok st j tb b h
    unfold ensureOllamaReady
    dsimp only
    rw [h]
    cases b <;> rfl
  · intro model ok st j tb e h
    unfold ensureOllamaReady
    dsimp only
    rw [h]

def tagsCatalog : Json :=
  .obj [("models", .arr [.obj [("name", .str "llama3.1:8b")]])]

/-- C4 witness: the amended preflight description at concrete inputs — an
HTTP error status with a parseable catalog body still succeeds when the
model is present. -/
theorem claim_C4_preflight_behavior_witness :
    hasModelCheck tagsCatalog "llama3.1:8b" = .ok true ∧
    ensureOllamaReady "llama3.1:8b" (some ⟨false, 500, some tagsCatalog, none⟩) = .ok () := by
  refine ⟨rfl, ?_⟩
  have h := claim_C4_preflight_behavior.2.2.1 "llama3.1:8b" false 500 tagsCatalog none true rfl
  simpa using h

def remoteIssue₀ : Json :=
  .obj [("file", .str "a/x.ts"), ("startLine", .num 5), ("endLine", .num 3),
        ("severity", .str "weird"), ("message", .str "m")]

def remoteData₀ : Json :=
  .obj [("summary", .str "ok"), ("issues", .arr [remoteIssue₀])]

/-- C1 counterexample: in remote mode the scenario issue
`{file:"a/x.ts", startLine:5, endLine:3, severity:"weird", message:"m"}`
is returned by the parsing stage exactly as received — `file` is still
`"a/x.ts"` (not `"x.ts"`), `endLine` is still `3` (not `5`) and `severity`
is still `"weird"` (not `"major"`). -/
theorem claim_C1_counterexample :
    (getReview "m" "https://proxy.example" none none
        (some ⟨true, 200, some remoteData₀, some "body"⟩)).2 =
      .ok ⟨"ok", [remoteIssue₀]⟩ ∧
    jsGetField remoteIssue₀ "file" = some (.str "a/x.ts") ∧
    ("a/x.ts" : String) ≠ "x.ts" ∧
    jsGetField remoteIssue₀ "endLine" = some (.num 3) ∧ (3 : Int) ≠ 5 ∧
    jsGetField remoteIssue₀ "severity" = some (.str "weird") ∧
    ("weird" : String) ≠ "major" := by
  refine ⟨rfl, rfl, by decide, rfl, by decide, rfl, by decide⟩

/-- C1 (amended): remote mode applies **no** clamping or defaulting: when
the proxy body's `issues` field is an array, `getReview` returns exactly
those issue values, untouched (clamping happens only in local mode, inside
`safeParseReview`); a missing `issues` field yields the empty list. -/
theorem claim_C1_remote_no_clamping (model remoteUrl : String)
    (tags generate : Option FetchResult) (st : Nat) (tb : Option String)
    (fs : List (String × Json)) (xs : List Json)
    (h1 : remoteUrl ≠ "") (h2 : Json.lookupF fs "issues" = some (.arr xs)) :
    ((getReview model remoteUrl tags generate
        (some ⟨true, st, some (.obj fs), tb⟩)).2).map ReviewResult.issues =
      .ok xs := by
  unfold getReview
  rw [if_neg h1]
  simp only []
  unfold remoteShape
  simp [jsGetField, h2, Except.map]

/-- C1 witness: the amended statement at the scenario input. -/
theorem claim_C1_remote_no_clamping_witness :
    ("https://proxy.example" : String) ≠ "" ∧
    Json.lookupF [("summary", Json.str "ok"), ("issues", Json.arr [remoteIssue₀])]
        "issues" = some (.arr [remoteIssue₀]) ∧
    ((getReview "m" "https://proxy.example" none none
        (some ⟨true, 200,
          some (.obj [("summary", Json.str "ok"),
                      ("issues", Json.arr [remoteIssue₀])]), some "body"⟩)).2).map
        ReviewResult.issues = .ok [remoteIssue₀] :=
  ⟨by decide, rfl,
   claim_C1_remote_no_clamping "m" "https://proxy.example" none none 200 (some "body")
     _ _ (by decide) rfl⟩


/-! ### C2 machinery -/

set_option maxRecDepth 10000

/-- The invariant the claim states for every parsed issue. -/
def issueWellFormed (it : Json) : Prop :=
  (∃ n m : JsNum, jsGetField it "startLine" = some (.num n) ∧ JsNum.Le 1 n ∧
    jsGetField it "endLine" = some (.num m) ∧ JsNum.Le n m) ∧
  (∃ s, jsGetField it "severity" = some (.str s) ∧ s ∈ sevEnum) ∧
  (∃ f, jsGetField it "file" = some (.str f))

theorem coerceIssue_wellFormed (x y : Json) (h : coerceIssue x = some y) :
    issueWellFormed y := by
  rcases x with _ | b | n | s | a | fs
  · exact absurd h (by simp [coerceIssue])
  · exact absurd h (by simp [coerceIssue])
  · exact absurd h (by simp [coerceIssue])
  · exact absurd h (by simp [coerceIssue])
  · simp only [coerceIssue, Option.some.injEq] at h
    subst h
    exact ⟨⟨1, 1, rfl, JsNum.le_refl 1, rfl, JsNum.le_refl 1⟩,
           ⟨"major", rfl, by simp [sevEnum]⟩, ⟨"", rfl⟩⟩
  · simp only [coerceIssue, Option.some.injEq] at h
    subst h
    refine ⟨⟨coercedStart fs, coercedEnd fs, ?_, JsNum.le_maxJ_left 1 _, ?_,
             JsNum.le_maxJ_left _ _⟩,
            ⟨coercedSev fs, ?_, coercedSev_mem fs⟩, ⟨coercedFile fs, ?_⟩⟩
    · show Json.lookupF _ "startLine" = _
      rw [lookupF_objInsert_ne _ _ _ _ (by decide), lookupF_objInsert_ne _ _ _ _ (by decide),
          lookupF_objInsert_ne _ _ _ _ (by decide), lookupF_objInsert_self]
    · show Json.lookupF _ "endLine" = _
      rw [lookupF_objInsert_ne _ _ _ _ (by decide), lookupF_objInsert_ne _ _ _ _ (by decide),
          lookupF_objInsert_self]
    · show Json.lookupF _ "severity" = _
      rw [lookupF_objInsert_ne _ _ _ _ (by decide), lookupF_objInsert_self]
    · show Json.lookupF _ "file" = _
      rw [lookupF_objInsert_self]

theorem coerceIssues_mem (xs ys : List Json) (h : coerceIssues xs = some ys) :
    ∀ y ∈ ys, ∃ x, coerceIssue x = some y := by
  induction xs generalizing ys with
  | nil =>
    simp only [coerceIssues, Option.some.injEq] at h
    subst h
    simp
  | cons x xs ih =>
    simp only [coerceIssues] at h
    cases hx : coerceIssue x with
    | none => rw [hx] at h; exact absurd h (by simp)
    | some y0 =>
      rw [hx] at h
      cases hxs : coerceIssues xs with
      | none => rw [hxs] at h; exact absurd h (by simp)
      | some ys0 =>
        rw [hxs] at h
        simp only [Option.some.injEq] at h
        subst h
        intro y hy
        rcases List.mem_cons.mp hy with rfl | hy'
        · exact ⟨x, hx⟩
        · exact ih ys0 hxs y hy'

theorem parseFromJson_issues (j : Json) (r : ReviewResult)
    (h : parseFromJson j = some r) :
    coerceIssues (issuesArrOf j) = some r.issues := by
  unfold parseFromJson at h
  by_cases hn : j.isNull
  · rw [if_pos hn] at h; exact absurd h (by simp)
  · rw [if_neg hn] at h
    cases hxs : coerceIssues (issuesArrOf j) with
    | none => rw [hxs] at h; exact absurd h (by simp)
    | some ys =>
      rw [hxs] at h
      simp only [Option.some.injEq] at h
      subst h
      rfl

/-- On parse success, `safeParseReview` is the try-block result, with the
fallback taken exactly when the coercion throws. -/
theorem safeParseReview_eq_of_parse (raw : String) (j : Json)
    (h : jsonParseChars (extractJsonChars (jsTrimList raw.data)) = some j) :
    safeParseReview raw =
      (match parseFromJson j with
       | some r => r
       | none => fallbackResult (jsTrimList raw.data)) := by
  simp only [safeParseReview]
  rw [h]

/-- C2 (amended): whenever the extracted candidate parses as JSON, every
issue in the returned result has a numeric `startLine ≥ 1`, a numeric
`endLine ≥ startLine` and a severity in the three-value enum; a non-array
`issues` field yields an empty issues list; the coercion defaults are as
stated: a missing/non-numeric `startLine` becomes 1, a missing or
non-numeric `endLine` becomes `startLine`, a supplied `endLine` smaller
than the coerced `startLine` is floored up to it, and a severity outside
the enum becomes `"major"`; integrality, however, is only preserved, not
enforced: a supplied integer `startLine` yields an integer value, while a
fractional supplied value (e.g. `2.5`) is kept fractional, refuting the
original "positive integer" wording. -/
theorem claim_C2_parse_success_clamping (raw : String) (j : Json)
    (h : jsonParseChars (extractJsonChars (jsTrimList raw.data)) = some j) :
    (∀ it ∈ (safeParseReview raw).issues, issueWellFormed it) ∧
    ((∀ a, jsGetField j "issues" ≠ some (.arr a)) → (safeParseReview raw).issues = []) ∧
    (∀ fs, jsToNumber (Json.lookupF fs "startLine") = none → coercedStart fs = 1) ∧
    (∀ fs, jsToNumber (Json.lookupF fs "endLine") = none →
      coercedEnd fs = coercedStart fs) ∧
    (∀ fs m, jsToNumber (Json.lookupF fs "endLine") = some m →
      JsNum.Lt m (coercedStart fs) → coercedEnd fs = coercedStart fs) ∧
    (∀ fs, (∀ s, Json.lookupF fs "severity" ≠ some (.str s)) →
      coercedSev fs = "major") ∧
    (∀ fs n, jsToNumber (Json.lookupF fs "startLine") = some n → n.IsInt →
      (coercedStart fs).IsInt) := by
  have heq := safeParseReview_eq_of_parse raw j h
  refine ⟨?_, ?_, ?_, ?_, ?_, ?_, ?_⟩
  · intro it hit
    rw [heq] at hit
    cases hp : parseFromJson j with
    | none =>
      rw [hp] at hit
      simp [fallbackResult] at hit
    | some r =>
      rw [hp] at hit
      have hxs := parseFromJson_issues j r hp
      obtain ⟨x, hx⟩ := coerceIssues_mem _ _ hxs it hit
      exact coerceIssue_wellFormed x it hx
  · intro hna
    have hempty : issuesArrOf j = [] := by
      unfold issuesArrOf
      cases hv : jsGetField j "issues" with
      | none => rfl
      | some v =>
        rcases v with _ | b | n | s | a | fs
        · rfl
        · rfl
        · rfl
        · rfl
        · exact absurd hv (hna a)
        · rfl
    rw [heq]
    cases hp : parseFromJson j with
    | none => simp [fallbackResult]
    | some r =>
      have hxs := parseFromJson_issues j r hp
      rw [hempty] at hxs
      simp only [coerceIssues, Option.some.injEq] at hxs
      simp [← hxs]
  · intro fs hn
    unfold coercedStart numOr
    rw [hn]
    rfl
  · intro fs hn
    unfold coercedEnd numOr
    rw [hn]
    exact JsNum.maxJ_self _
  · intro fs m hm hlt
    unfold coercedEnd numOr
    rw [hm]
    show JsNum.maxJ (coercedStart fs)
      (if m.num = 0 then coercedStart fs else m) = coercedStart fs
    by_cases hz : m.num = 0
    · rw [if_pos hz]
      exact JsNum.maxJ_self _
    · rw [if_neg hz]
      exact JsNum.maxJ_eq_left _ _ hlt
  · intro fs hs
    unfold coercedSev
    cases hv : Json.lookupF fs "severity" with
    | none => rfl
    | some v =>
      rcases v with _ | b | n | s | a | o
      · rfl
      · rfl
      · rfl
      · exact absurd hv (hs s)
      · rfl
      · rfl
  · intro fs n hn hInt
    unfold coercedStart numOr
    rw [hn]
    show (JsNum.maxJ 1 (if n.num = 0 then 1 else n)).IsInt
    by_cases hz : n.num = 0
    · rw [if_pos hz, JsNum.maxJ_self]
      decide
    · rw [if_neg hz]
      exact JsNum.maxJ_isInt 1 n (by decide) hInt

def rawModelText : String :=
  "\x7b\"summary\":\"s\",\"issues\":[\x7b\"file\":\"a/x.ts\",\"startLine\":5,\"endLine\":3,\"severity\":\"weird\",\"message\":\"m\"\x7d]\x7d"

def rawModelJson : Json :=
  .obj [("summary", .str "s"),
        ("issues", .arr [.obj [("file", .str "a/x.ts"), ("startLine", .num 5),
                               ("endLine", .num 3), ("severity", .str "weird"),
                               ("message", .str "m")]])]

/-- C2 witness: a concrete parse-success input whose issue needed clamping
satisfies the invariant. -/
theorem claim_C2_parse_success_clamping_witness :
    jsonParseChars (extractJsonChars (jsTrimList rawModelText.data)) = some rawModelJson ∧
    (∀ it ∈ (safeParseReview rawModelText).issues, issueWellFormed it) :=
  ⟨rfl, (claim_C2_parse_success_clamping rawModelText rawModelJson rfl).1⟩

def rawFracText : String :=
  "\x7b\"issues\":[\x7b\"startLine\":2.5\x7d]\x7d"

/-- C2 counterexample to the original "positive integer" wording: the valid
JSON payload `\x7b"issues":[\x7b"startLine":2.5\x7d]\x7d` parses
successfully, and the returned issue's `startLine` (and hence `endLine`) is
the non-integer 5/2 — `Math.max(1, 2.5) = 2.5`; the coercion never rounds. -/
theorem claim_C2_counterexample :
    (safeParseReview rawFracText).issues =
      [.obj [("startLine", .num ⟨25, 10⟩), ("endLine", .num ⟨25, 10⟩),
             ("severity", .str "major"), ("file", .str "")]] ∧
    ¬(JsNum.mk 25 10).IsInt :=
  ⟨rfl, by decide⟩

/-! ### C5 machinery -/

/-- The condition under which the filter discards an issue: loaded text
available and non-empty, exact bang count, message mentions "exclamation". -/
def dropCondition (required : Nat) (m : List (String × String)) (it : Json) : Prop :=
  ∃ f t, jsGetField it "file" = some (.str f) ∧ m.lookup f = some t ∧ t ≠ "" ∧
    countBangs (issueLine it t).data = required ∧
    containsSubCI patExclamation (jsToStringU (jsGetField it "message")).data = true

theorem keepIssue_true_iff (required : Nat) (m : List (String × String)) (it : Json) :
    keepIssue required m it = true ↔ ¬dropCondition required m it := by
  unfold keepIssue dropCondition
  cases hf : jsGetField it "file" with
  | none => simp
  | some v =>
    rcases v with _ | b | n | s | a | o
    · simp
    · simp
    · simp
    · -- the file field is a string s
      cases hm : List.lookup s m with
      | none => simp [hm]
      | some t =>
        by_cases ht : t = ""
        · subst ht
          simp [hm]
        · simp [hm, ht]
          tauto
    · simp
    · simp

/-- C5 counterexample (to the claim as stated): with acceptance
`require 0 exclamation marks` and an empty (but available) loaded file
text, the claim's drop condition holds — text available, the flagged line
has exactly 0 `!` characters, the message mentions "exclamation" — yet the
filter keeps the issue, because `!text` in the source also treats the
empty string as unavailable. -/
def emptyFileIssue : Json :=
  .obj [("file", .str "f.ts"), ("startLine", .num 1),
        ("message", .str "add an exclamation mark")]

theorem claim_C5_counterexample :
    findRule ("require 0 exclamation marks" : String).data = some 0 ∧
    jsGetField emptyFileIssue "file" = some (.str "f.ts") ∧
    ([("f.ts", "")] : List (String × String)).lookup "f.ts" = some "" ∧
    countBangs (issueLine emptyFileIssue "").data = 0 ∧
    containsSubCI patExclamation
      (jsToStringU (jsGetField emptyFileIssue "message")).data = true ∧
    filterIssuesAgainstSpec [emptyFileIssue] "require 0 exclamation marks"
      [("f.ts", "")] = [emptyFileIssue] := by
  refine ⟨by decide, rfl, by decide, by decide, by decide, rfl⟩

/-- C5 (amended): when the acceptance text matches
`require N exclamation mark(s)`, the filter drops an issue iff the loaded
text of its file is available **and non-empty**, the line at index
`max(0, startLine−1)` of that text has exactly N `!` characters, and the
message mentions "exclamation" (case-insensitive); an issue whose file
text is unavailable — or empty, which the source's falsy test conflates
with unavailable — is kept. -/
theorem claim_C5_filter_drop_iff (acceptance : String) (required : Nat)
    (issues : List Json) (m : List (String × String))
    (h : findRule acceptance.data = some required) :
    ∀ it ∈ issues,
      (it ∈ filterIssuesAgainstSpec issues acceptance m ↔
        ¬dropCondition required m it) := by
  intro it hit
  unfold filterIssuesAgainstSpec
  rw [h, List.mem_filter]
  rw [← keepIssue_true_iff required m it]
  simp [hit]

def bangIssue : Json :=
  .obj [("file", .str "x.ts"), ("startLine", .num 1),
        ("message", .str "Missing required exclamation marks")]

/-- C5 witness: the spec's scenario — acceptance `require 4 exclamation
marks`, flagged line `alert("hi!!!!")` (4 bangs), message mentioning
exclamation marks — drops the issue; with 3 bangs it is kept. -/
theorem claim_C5_filter_drop_iff_witness :
    findRule ("require 4 exclamation marks" : String).data = some 4 ∧
    (bangIssue ∈ filterIssuesAgainstSpec [bangIssue] "require 4 exclamation marks"
        [("x.ts", "alert(\"hi!!!!\")")] ↔
      ¬dropCondition 4 [("x.ts", "alert(\"hi!!!!\")")] bangIssue) ∧
    filterIssuesAgainstSpec [bangIssue] "require 4 exclamation marks"
      [("x.ts", "alert(\"hi!!!!\")")] = [] ∧
    filterIssuesAgainstSpec [bangIssue] "require 4 exclamation marks"
      [("x.ts", "alert(\"hi!!!\")")] = [bangIssue] :=
  ⟨by decide,
   claim_C5_filter_drop_iff "require 4 exclamation marks" 4 [bangIssue]
     [("x.ts", "alert(\"hi!!!!\")")] (by decide) bangIssue (List.mem_singleton.mpr rfl),
   rfl, rfl⟩

/-! ### C7 machinery: the extraction pipeline on fence-wrapped input -/

theorem ciEq_tick_eq_false (c : Char) (h : c ≠ tick) : ciEq tick c = false := by
  have hu : toUpperAscii tick = tick := by decide
  simp only [ciEq, hu, Bool.or_self]
  exact beq_eq_false_iff_ne.mpr (Ne.symm h)

theorem jsTrimR_append_of_last (xs ys : List Char) (c : Char)
    (hc : xs.getLast? = some c) (hcs : jsSpace c = false) :
    jsTrimR (xs ++ ys) = xs ++ jsTrimR ys := by
  unfold jsTrimR
  rw [List.reverse_append, List.dropWhile_append]
  have hxr : xs.reverse.head? = some c := by rw [List.head?_reverse]; exact hc
  have hxdrop : xs.reverse.dropWhile jsSpace = xs.reverse := by
    cases hx : xs.reverse with
    | nil => simp
    | cons a l =>
      rw [hx] at hxr
      simp only [List.head?_cons, Option.some.injEq] at hxr
      subst hxr
      rw [List.dropWhile_cons, hcs]
      simp
  by_cases hemp : (ys.reverse.dropWhile jsSpace).isEmpty
  · rw [if_pos hemp, hxdrop, List.reverse_reverse]
    have : ys.reverse.dropWhile jsSpace = [] := by
      rwa [List.isEmpty_iff] at hemp
    rw [this]
    simp
  · rw [if_neg hemp, List.reverse_append, List.reverse_reverse]

theorem jsTrimL_append_cons (xs ys : List Char) (c : Char) (hcs : jsSpace c = false) :
    jsTrimL (xs ++ c :: ys) = jsTrimL xs ++ c :: ys := by
  unfold jsTrimL
  rw [List.dropWhile_append]
  have hdc : (c :: ys).dropWhile jsSpace = c :: ys := by
    rw [List.dropWhile_cons, hcs]
    simp
  by_cases hemp : (xs.dropWhile jsSpace).isEmpty
  · rw [if_pos hemp, hdc]
    have : xs.dropWhile jsSpace = [] := by rwa [List.isEmpty_iff] at hemp
    rw [this]
    simp
  · rw [if_neg hemp]

theorem findFence_append_clean (op' : List Char) (p rest : List Char)
    (hp : ∀ c ∈ p, c ≠ tick) :
    findFence (tick :: op') (p ++ rest) = findFence (tick :: op') rest := by
  induction p with
  | nil => rfl
  | cons c p' ih =>
    have hc : c ≠ tick := hp c (List.mem_cons_self c p')
    have hstrip : stripPrefixCI (tick :: op') (c :: (p' ++ rest)) = none := by
      simp only [stripPrefixCI, ciEq_tick_eq_false c hc]
      rfl
    rw [List.cons_append]
    simp only [findFence, hstrip]
    exact ih (fun d hd => hp d (List.mem_cons_of_mem c hd))

theorem stripTicks3_cons_ne (c : Char) (l : List Char) (h : c ≠ tick) :
    stripTicks3 (c :: l) = none := by
  unfold stripTicks3
  rw [if_neg]
  intro hcon
  rw [List.take_cons (by norm_num : 0 < 3)] at hcon
  exact h (List.cons_eq_cons.mp hcon).1

theorem findTriple_append_clean (p l : List Char) (hp : ∀ c ∈ p, c ≠ tick) :
    findTriple (p ++ l) = (findTriple l).map (fun q => (p ++ q.1, q.2)) := by
  induction p with
  | nil =>
    simp only [List.nil_append]
    cases h : findTriple l with
    | none => simp
    | some q => simp
  | cons c p' ih =>
    have hc : c ≠ tick := hp c (List.mem_cons_self c p')
    rw [List.cons_append]
    simp only [findTriple, stripTicks3_cons_ne c _ hc]
    rw [ih (fun d hd => hp d (List.mem_cons_of_mem c hd))]
    cases h : findTriple l with
    | none => simp
    | some q => simp

theorem upToLastClose_append_none (xs ys : List Char)
    (h : upToLastClose ys = none) : upToLastClose (xs ++ ys) = upToLastClose xs := by
  induction xs with
  | nil => simpa using h
  | cons c xs' ih =>
    rw [List.cons_append]
    simp only [upToLastClose]
    rw [ih]

theorem upToLastClose_isSome_of_getLast (l : List Char)
    (h : l.getLast? = some '}') : ∃ t, upToLastClose l = some t := by
  induction l with
  | nil => simp at h
  | cons c rest ih =>
    cases hr : rest with
    | nil =>
      subst hr
      simp only [List.getLast?_singleton, Option.some.injEq] at h
      subst h
      exact ⟨['}'], rfl⟩
    | cons d rest' =>
      rw [hr] at h ih
      rw [List.getLast?_cons_cons] at h
      obtain ⟨t, ht⟩ := ih h
      refine ⟨c :: t, ?_⟩
      have hstep : upToLastClose (c :: d :: rest') =
          (match upToLastClose (d :: rest') with
           | some t => some (c :: t)
           | none => if c = '}' then some [c] else none) := rfl
      rw [hstep, ht]

/-- Trimming the fence-wrapped text trims only the surrounding prose: the
closing fence's backtick shields the right end and the opener shields the
middle. -/
theorem jsTrimList_wrapped (P O' S : List Char) :
    jsTrimList (P ++ ([tick, tick, tick, 'j', 's', 'o', 'n', '\n'] ++
        ('{' :: O' ++ (['\n', tick, tick, tick] ++ S)))) =
      jsTrimL P ++ tick :: tick :: tick :: 'j' :: 's' :: 'o' :: 'n' :: '\n' ::
        '{' :: ((O' ++ ['\n', tick, tick, tick]) ++ jsTrimR S) := by
  have heq : (P ++ ([tick, tick, tick, 'j', 's', 'o', 'n', '\n'] ++
      ('{' :: O' ++ (['\n', tick, tick, tick] ++ S)))) =
      ((P ++ [tick, tick, tick, 'j', 's', 'o', 'n', '\n', '{'] ++
        (O' ++ ['\n', tick, tick, tick])) ++ S) := by
    simp
  have hlastU : (P ++ [tick, tick, tick, 'j', 's', 'o', 'n', '\n', '{'] ++
      (O' ++ ['\n', tick, tick, tick])).getLast? = some tick := by
    rw [List.getLast?_append, List.getLast?_append]
    rfl
  unfold jsTrimList
  rw [heq, jsTrimR_append_of_last _ S tick hlastU (by decide)]
  have heq2 : (P ++ [tick, tick, tick, 'j', 's', 'o', 'n', '\n', '{'] ++
      (O' ++ ['\n', tick, tick, tick])) ++ jsTrimR S =
      P ++ tick :: (tick :: tick :: 'j' :: 's' :: 'o' :: 'n' :: '\n' ::
        '{' :: ((O' ++ ['\n', tick, tick, tick]) ++ jsTrimR S)) := by
    simp
  rw [heq2, jsTrimL_append_cons _ _ tick (by decide)]

theorem findFence_wrapped (P₁ O' S₁ : List Char)
    (hP₁ : ∀ c ∈ P₁, c ≠ tick) (hO' : ∀ c ∈ O', c ≠ tick) :
    findFence opFenceJson (P₁ ++ tick :: tick :: tick :: 'j' :: 's' :: 'o' :: 'n' :: '\n' ::
        '{' :: ((O' ++ ['\n', tick, tick, tick]) ++ S₁)) =
      some (('{' :: O') ++ ['\n']) := by
  have hop : opFenceJson = tick :: [tick, tick, 'j', 's', 'o', 'n'] := rfl
  rw [hop, findFence_append_clean _ P₁ _ hP₁, ← hop]
  have hstrip : stripPrefixCI opFenceJson
      (tick :: tick :: tick :: 'j' :: 's' :: 'o' :: 'n' :: '\n' ::
        '{' :: ((O' ++ ['\n', tick, tick, tick]) ++ S₁)) =
      some ('\n' :: '{' :: ((O' ++ ['\n', tick, tick, tick]) ++ S₁)) := rfl
  simp only [findFence, hstrip]
  have hdrop : ('\n' :: '{' :: ((O' ++ ['\n', tick, tick, tick]) ++ S₁)).dropWhile jsSpace =
      '{' :: ((O' ++ ['\n', tick, tick, tick]) ++ S₁) := by
    simp [List.dropWhile_cons, show jsSpace '\n' = true from rfl,
          show jsSpace '{' = false from rfl]
  rw [hdrop]
  have hY : '{' :: ((O' ++ ['\n', tick, tick, tick]) ++ S₁) =
      ('{' :: O') ++ (['\n', tick, tick, tick] ++ S₁) := by simp
  have hclean : ∀ c ∈ '{' :: O', c ≠ tick := by
    intro c hc
    rcases List.mem_cons.mp hc with rfl | hc'
    · decide
    · exact hO' c hc'
  have htr : findTriple (['\n', tick, tick, tick] ++ S₁) = some (['\n'], S₁) := by
    have h3 : stripTicks3 (tick :: tick :: tick :: S₁) = some S₁ := rfl
    show findTriple ('\n' :: (tick :: tick :: tick :: S₁)) = _
    rw [findTriple, stripTicks3_cons_ne '\n' _ (by decide)]
    rw [findTriple, h3]
    rfl
  rw [hY, findTriple_append_clean _ _ hclean, htr]
  rfl

theorem extractJsonChars_of_fence (tl cap : List Char)
    (hf : findFence opFenceJson tl = some cap) :
    extractJsonChars tl =
      (match objMatchChars cap with | some m => m | none => cap) := by
  simp only [extractJsonChars]
  rw [hf]

theorem extractJsonChars_of_nofence (tl : List Char)
    (h1 : findFence opFenceJson tl = none) (h2 : findFence opFence tl = none) :
    extractJsonChars tl =
      (match objMatchChars tl with | some m => m | none => tl) := by
  simp only [extractJsonChars]
  rw [h1, h2]

theorem objMatchChars_cons_open (X : List Char) :
    objMatchChars ('{' :: X) = (upToLastClose X).map (fun t => '{' :: t) := by
  unfold objMatchChars
  have h : fromFirstOpen ('{' :: X) = some ('{' :: X) := by
    unfold fromFirstOpen
    rw [if_pos rfl]
  rw [h]

/-- The extraction pipeline yields the same string on a fence-wrapped JSON
object (with backtick-free surrounding prose) as on the bare object. -/
theorem extract_fence_wrapped (P O S : List Char)
    (hP : ∀ c ∈ P, c ≠ tick) (hO : ∀ c ∈ O, c ≠ tick)
    (hhead : O.head? = some '{') (hlast : O.getLast? = some '}') :
    extractJsonChars (jsTrimList (P ++ ([tick, tick, tick, 'j', 's', 'o', 'n', '\n'] ++
        (O ++ (['\n', tick, tick, tick] ++ S))))) =
      extractJsonChars (jsTrimList O) := by
  obtain ⟨O', rfl⟩ : ∃ O', O = '{' :: O' := by
    cases O with
    | nil => simp at hhead
    | cons c O'' =>
      simp only [List.head?_cons, Option.some.injEq] at hhead
      exact ⟨O'', by rw [hhead]⟩
  have hO' : ∀ c ∈ O', c ≠ tick := fun c hc => hO c (List.mem_cons_of_mem _ hc)
  have hO'ne : O' ≠ [] := by
    intro hco
    subst hco
    rw [List.getLast?_singleton] at hlast
    exact absurd hlast (by decide)
  have hlast' : O'.getLast? = some '}' := by
    cases O' with
    | nil => exact absurd rfl hO'ne
    | cons d rest => rw [List.getLast?_cons_cons] at hlast; exact hlast
  obtain ⟨t, ht⟩ := upToLastClose_isSome_of_getLast O' hlast'
  -- wrapped side
  have hsub : ∀ c ∈ jsTrimL P, c ≠ tick := by
    intro c hc
    exact hP c ((List.dropWhile_sublist jsSpace).subset hc)
  have hfence := findFence_wrapped (jsTrimL P) O' (jsTrimR S) hsub hO'
  have hwrapped : extractJsonChars (jsTrimList
      (P ++ ([tick, tick, tick, 'j', 's', 'o', 'n', '\n'] ++
        ('{' :: O' ++ (['\n', tick, tick, tick] ++ S))))) = '{' :: t := by
    rw [jsTrimList_wrapped P O' S]
    rw [extractJsonChars_of_fence _ _ hfence]
    have hcap : ('{' :: O') ++ ['\n'] = '{' :: (O' ++ ['\n']) := by simp
    rw [hcap, objMatchChars_cons_open]
    rw [upToLastClose_append_none O' ['\n'] rfl, ht]
    rfl
  -- unwrapped side
  have htrO : jsTrimList ('{' :: O') = '{' :: O' := by
    have h3 : jsTrimR ([] : List Char) = [] := rfl
    have h2 := jsTrimR_append_of_last ('{' :: O') [] '}' hlast (by decide)
    rw [List.append_nil, h3, List.append_nil] at h2
    unfold jsTrimList
    rw [h2]
    unfold jsTrimL
    rw [List.dropWhile_cons]
    simp [show jsSpace '{' = false from rfl]
  have hf1 : findFence opFenceJson ('{' :: O') = none := by
    have h := findFence_append_clean [tick, tick, 'j', 's', 'o', 'n'] ('{' :: O') [] hO
    simpa using h
  have hf2 : findFence opFence ('{' :: O') = none := by
    have h := findFence_append_clean [tick, tick] ('{' :: O') [] hO
    simpa using h
  have hunwrapped : extractJsonChars (jsTrimList ('{' :: O')) = '{' :: t := by
    rw [htrO, extractJsonChars_of_nofence _ hf1 hf2, objMatchChars_cons_open, ht]
    rfl
  rw [hunwrapped, ← hwrapped]

/-- C7 counterexample: `\x7b"issues":[5]\x7d` is a single JSON object, and
wrapped in a code fence it extracts and parses identically — but the
primitive issue entry makes the coercion throw, so both calls fall back to
their (different) trimmed raw texts, and the two results differ. -/
theorem claim_C7_counterexample :
    jsonParseChars (extractJsonChars (jsTrimList
        ("```json\n\x7b\"issues\":[5]\x7d\n```" : String).data)) =
      some (.obj [("issues", .arr [.num 5])]) ∧
    jsonParseChars (extractJsonChars (jsTrimList
        ("\x7b\"issues\":[5]\x7d" : String).data)) =
      some (.obj [("issues", .arr [.num 5])]) ∧
    (safeParseReview "```json\n\x7b\"issues\":[5]\x7d\n```").summary =
      "```json\n\x7b\"issues\":[5]\x7d\n```" ∧
    (safeParseReview "\x7b\"issues\":[5]\x7d").summary = "\x7b\"issues\":[5]\x7d" ∧
    (safeParseReview "```json\n\x7b\"issues\":[5]\x7d\n```").summary ≠
      (safeParseReview "\x7b\"issues\":[5]\x7d").summary :=
  ⟨rfl, rfl, rfl, rfl, by decide⟩

/-- C7 (amended): for a single JSON object wrapped in `json` code-fence
markers with backtick-free surrounding prose, the Response Parser extracts
the identical string it would extract from the unwrapped object (first
fenced block, else brace-delimited substring, else whole text), hence
parses it identically; and whenever the parsed object also passes the
coercion step, the two final results are equal.  (In the degraded fallback
case the summaries echo the two different raw texts.) -/
theorem claim_C7_fence_extraction (pre obj post : String)
    (hpre : ∀ c ∈ pre.data, c ≠ tick) (hobj : ∀ c ∈ obj.data, c ≠ tick)
    (hhead : obj.data.head? = some '{') (hlast : obj.data.getLast? = some '}') :
    extractJsonChars (jsTrimList
        (pre ++ "```json\n" ++ obj ++ "\n```" ++ post).data) =
      extractJsonChars (jsTrimList obj.data) ∧
    (∀ j r, jsonParseChars (extractJsonChars (jsTrimList obj.data)) = some j →
      parseFromJson j = some r →
      safeParseReview (pre ++ "```json\n" ++ obj ++ "\n```" ++ post) =
        safeParseReview obj) := by
  have hB : ("```json\n" : String).data =
      [tick, tick, tick, 'j', 's', 'o', 'n', '\n'] := rfl
  have hC : ("\n```" : String).data = ['\n', tick, tick, tick] := rfl
  have hdata : (pre ++ "```json\n" ++ obj ++ "\n```" ++ post).data =
      pre.data ++ ([tick, tick, tick, 'j', 's', 'o', 'n', '\n'] ++
        (obj.data ++ (['\n', tick, tick, tick] ++ post.data))) := by
    rw [String.data_append, String.data_append, String.data_append,
        String.data_append, hB, hC]
    simp
  have hx : extractJsonChars (jsTrimList
      (pre ++ "```json\n" ++ obj ++ "\n```" ++ post).data) =
      extractJsonChars (jsTrimList obj.data) := by
    rw [hdata]
    exact extract_fence_wrapped pre.data obj.data post.data hpre hobj hhead hlast
  refine ⟨hx, ?_⟩
  intro j r hj hr
  simp only [safeParseReview]
  rw [hx, hj]
  simp only [hr]

def fencedObjText : String := "\x7b\"summary\":\"ok\",\"issues\":[]\x7d"

/-- C7 witness: a concrete fenced object surrounded by prose produces the
same review result as the bare object. -/
theorem claim_C7_fence_extraction_witness :
    (∀ c ∈ ("Sure! Here is the review:" : String).data, c ≠ tick) ∧
    safeParseReview ("Sure! Here is the review:" ++ "```json\n" ++ fencedObjText ++
        "\n```" ++ "\nDone.") = safeParseReview fencedObjText :=
  ⟨by decide,
   (claim_C7_fence_extraction "Sure! Here is the review:" fencedObjText "\nDone."
       (by decide) (by decide) (by decide) (by decide)).2
     (.obj [("summary", .str "ok"), ("issues", .arr [])]) ⟨"ok", []⟩ rfl rfl⟩
